import Mathlib

/-!
Shallow embedding of the workflow execution engine of this repository:
`backend/app/services/workflow_service.py` (class `WorkflowService`) and
`backend/app/services/llm_service.py` (class `LLMService`).

Modelling conventions:
- Python JSON-ish values (node `data` maps, node outputs, merged inputs) are
  modelled by the inductive `JVal`; Python dicts are association lists with
  Python-dict insertion semantics (`dictInsert`: replace in place, else append).
- The external collaborators (`DocumentService.search_similar_content`, the
  OpenAI / Gemini HTTP calls, web search) are oracles: unspecified total
  functions returning `Except String _`, where `.error msg` models the
  collaborator raising an exception with message `msg`.
- The chat-history persistence (`db.add(chat_message); db.commit()` in the
  userQuery and output branches) is the oracle `commitChat`: on success the
  row is appended to `RunState.chat`; `.error msg` models the commit raising.
  Since a Python exception does not roll back mutations already performed,
  the body's error value carries the state at raise time — in particular the
  node-output write that precedes the failing commit is retained, and the
  `except` handler then overwrites that entry.
- `RunState.calls` and `RunState.writes` are ghost instrumentation: `calls`
  records each `_process_node` invocation (appended at the call sites, which
  mirror the two call sites in `_process_workflow_nodes`), `writes` records
  every assignment `node_outputs[node_id] = ...`.  Neither influences control
  flow.
- The `while` loop of `_process_workflow_nodes` is embedded as the
  fuel-indexed `processLoop`, invoked with fuel `nodes.length + 1`;
  `processLoop_fuel_irrel` proves the fuel bound never truncates the loop,
  so the embedding agrees with the unbounded Python loop.
-/

/-- A JSON-like value, as stored in node configurations, node outputs and
merged inputs. -/
inductive JVal where
  | null : JVal
  | bool : Bool → JVal
  | str : String → JVal
  | arr : List JVal → JVal
  | obj : List (String × JVal) → JVal

mutual

def JVal.decEq : (a b : JVal) → Decidable (a = b)
  | .null, .null => isTrue rfl
  | .bool a, .bool b =>
    match Bool.decEq a b with
    | isTrue h => isTrue (h ▸ rfl)
    | isFalse h => isFalse (fun hh => h (JVal.bool.inj hh))
  | .str a, .str b =>
    match String.decEq a b with
    | isTrue h => isTrue (h ▸ rfl)
    | isFalse h => isFalse (fun hh => h (JVal.str.inj hh))
  | .arr a, .arr b =>
    match JVal.decEqList a b with
    | isTrue h => isTrue (h ▸ rfl)
    | isFalse h => isFalse (fun hh => h (JVal.arr.inj hh))
  | .obj a, .obj b =>
    match JVal.decEqObj a b with
    | isTrue h => isTrue (h ▸ rfl)
    | isFalse h => isFalse (fun hh => h (JVal.obj.inj hh))
  | .null, .bool _ => isFalse (fun h => JVal.noConfusion h)
  | .null, .str _ => isFalse (fun h => JVal.noConfusion h)
  | .null, .arr _ => isFalse (fun h => JVal.noConfusion h)
  | .null, .obj _ => isFalse (fun h => JVal.noConfusion h)
  | .bool _, .null => isFalse (fun h => JVal.noConfusion h)
  | .bool _, .str _ => isFalse (fun h => JVal.noConfusion h)
  | .bool _, .arr _ => isFalse (fun h => JVal.noConfusion h)
  | .bool _, .obj _ => isFalse (fun h => JVal.noConfusion h)
  | .str _, .null => isFalse (fun h => JVal.noConfusion h)
  | .str _, .bool _ => isFalse (fun h => JVal.noConfusion h)
  | .str _, .arr _ => isFalse (fun h => JVal.noConfusion h)
  | .str _, .obj _ => isFalse (fun h => JVal.noConfusion h)
  | .arr _, .null => isFalse (fun h => JVal.noConfusion h)
  | .arr _, .bool _ => isFalse (fun h => JVal.noConfusion h)
  | .arr _, .str _ => isFalse (fun h => JVal.noConfusion h)
  | .arr _, .obj _ => isFalse (fun h => JVal.noConfusion h)
  | .obj _, .null => isFalse (fun h => JVal.noConfusion h)
  | .obj _, .bool _ => isFalse (fun h => JVal.noConfusion h)
  | .obj _, .str _ => isFalse (fun h => JVal.noConfusion h)
  | .obj _, .arr _ => isFalse (fun h => JVal.noConfusion h)

def JVal.decEqList : (a b : List JVal) → Decidable (a = b)
  | [], [] => isTrue rfl
  | [], _ :: _ => isFalse (fun h => List.noConfusion h)
  | _ :: _, [] => isFalse (fun h => List.noConfusion h)
  | a :: as, b :: bs =>
    match JVal.decEq a b with
    | isFalse h1 => isFalse (fun h => h1 (List.cons.inj h).1)
    | isTrue h1 =>
      match JVal.decEqList as bs with
      | isTrue h2 => isTrue (by rw [h1, h2])
      | isFalse h2 => isFalse (fun h => h2 (List.cons.inj h).2)

def JVal.decEqObj : (a b : List (String × JVal)) → Decidable (a = b)
  | [], [] => isTrue rfl
  | [], _ :: _ => isFalse (fun h => List.noConfusion h)
  | _ :: _, [] => isFalse (fun h => List.noConfusion h)
  | (k, v) :: as, (k', v') :: bs =>
    match String.decEq k k' with
    | isFalse h1 => isFalse (fun h => h1 (congrArg Prod.fst (List.cons.inj h).1))
    | isTrue h1 =>
      match JVal.decEq v v' with
      | isFalse h2 => isFalse (fun h => h2 (congrArg Prod.snd (List.cons.inj h).1))
      | isTrue h2 =>
        match JVal.decEqObj as bs with
        | isTrue h3 => isTrue (by rw [h1, h2, h3])
        | isFalse h3 => isFalse (fun h => h3 (List.cons.inj h).2)

end

instance : DecidableEq JVal := JVal.decEq

/-- Python truthiness of a JSON-like value (`if x:` / `if not x:`). -/
def truthy : JVal → Bool
  | .null => false
  | .bool b => b
  | .str s => s ≠ ""
  | .arr l => !l.isEmpty
  | .obj l => !l.isEmpty

/-- Python `d.get(k, default)` on an association-list dict. -/
def jget (l : List (String × JVal)) (k : String) (d : JVal) : JVal :=
  (l.lookup k).getD d

/-- Python dict assignment `d[k] = v`: replace the value in place if the key
is present (keeping its position), else append the new binding. -/
def dictInsert (l : List (String × JVal)) (k : String) (v : JVal) :
    List (String × JVal) :=
  match l with
  | [] => [(k, v)]
  | (k', v') :: rest =>
    if k' = k then (k, v) :: rest else (k', v') :: dictInsert rest k v

/-- A workflow node, from the `nodes` list of a workflow: Python dict
`{"id": ..., "type": ..., "data": {...}}` read via `node.get`. -/
structure Node where
  id : String
  type : String
  data : List (String × JVal)
deriving DecidableEq

/-- A workflow edge: Python dict `{"source": ..., "target": ...}`. -/
structure Edge where
  source : String
  target : String
deriving DecidableEq

/-- The mutable per-execution state of `_process_workflow_nodes`:
`outputs` is the `node_outputs` dict, `chat` the chat-history rows added via
the db session (execution id, role, content).  `calls` and `writes` are ghost
logs (see the file header). -/
structure RunState where
  outputs : List (String × JVal)
  chat : List (Nat × String × JVal)
  calls : List String
  writes : List String
deriving DecidableEq

/-- The state at the start of `_process_workflow_nodes`. -/
def initState : RunState := ⟨[], [], [], []⟩

/-- `node_outputs[node_id] = v`, with the ghost write log updated. -/
def RunState.insertOut (st : RunState) (k : String) (v : JVal) : RunState :=
  { st with outputs := dictInsert st.outputs k v, writes := st.writes ++ [k] }

/-- External collaborators of `WorkflowService`, as oracles.
`generate` is `LLMService.generate_response(query, model, context,
custom_prompt, use_web_search, api_key)` returning `(response, sources)`;
`searchSimilar` is `DocumentService.search_similar_content(query,
document_ids, db, embedding_api_key)`; `commitChat` is the persistence of a
chat-history row (`db.add(models.ChatHistory(workflow_execution_id, role,
content)); db.commit()`).  `.error msg` models the collaborator raising an
exception whose `str` is `msg`. -/
structure Oracles where
  generate : JVal → JVal → JVal → JVal → JVal → JVal →
    Except String (String × List String)
  searchSimilar : JVal → JVal → JVal → Except String (List String)
  commitChat : Nat → String → JVal → Except String Unit

/-- The `knowledgeBase` input scan (workflow_service.py lines 213-217):
first entry whose `type` is `"user_query"` wins (the loop `break`s), and its
`query` field (default `""`) is returned; `""` if no entry matches. -/
def kbScan : List (String × JVal) → JVal
  | [] => .str ""
  | (_, v) :: rest =>
    match v with
    | .obj fields =>
      match fields.lookup "type" with
      | some (.str t) =>
        if t = "user_query" then jget fields "query" (.str "") else kbScan rest
      | _ => kbScan rest
    | _ => kbScan rest

/-- The `llmEngine` input scan (workflow_service.py lines 237-246): the loop
has no `break`, so each matching entry overwrites the accumulator — the last
`user_query` entry and the last `knowledge_base` entry win.  `q` and `c` are
the accumulators (initialised `""` by the caller). -/
def llmScan : List (String × JVal) → JVal → JVal → JVal × JVal
  | [], q, c => (q, c)
  | (_, v) :: rest, q, c =>
    match v with
    | .obj fields =>
      match fields.lookup "type" with
      | some (.str t) =>
        if t = "user_query" then llmScan rest (jget fields "query" (.str "")) c
        else if t = "knowledge_base" then
          llmScan rest q (jget fields "context" (.str ""))
        else llmScan rest q c
      | _ => llmScan rest q c
    | _ => llmScan rest q c

/-- The `output` input scan (workflow_service.py lines 281-285): first entry
whose `type` is `"llm_response"` wins (the loop `break`s); returns its
`response` (default `""`) and `sources` (default `[]`). -/
def outScan : List (String × JVal) → JVal × JVal
  | [] => (.str "", .arr [])
  | (_, v) :: rest =>
    match v with
    | .obj fields =>
      match fields.lookup "type" with
      | some (.str t) =>
        if t = "llm_response" then
          (jget fields "response" (.str ""), jget fields "sources" (.arr []))
        else outScan rest
      | _ => outScan rest
    | _ => outScan rest

/-- The `"error"` output written by the `except` handler of `_process_node`
(workflow_service.py lines 302-306). -/
def errObj (msg : String) : JVal :=
  .obj [("error", .str msg), ("type", .str "error")]

/-- The `try` body of `WorkflowService._process_node` (lines 196-300):
dispatch on `node.type`; `.error (msg, st')` is an exception escaping the
body and reaching the `except` handler, with `st'` the state at raise time
(mutations made before the raise — the output write preceding a failing chat
commit — are retained, as in Python).  A node type matching none of the four
branches falls through the `if`/`elif` chain and does nothing (`.ok st`). -/
def processNodeBody (orc : Oracles) (eid : Nat) (node : Node)
    (input : List (String × JVal)) (st : RunState) :
    Except (String × RunState) RunState :=
  if node.type = "userQuery" then
    -- query = input_data.get("query", node_data.get("query", ""))
    let query := jget input "query" (jget node.data "query" (.str ""))
    let st := st.insertOut node.id (.obj [("query", query), ("type", .str "user_query")])
    match orc.commitChat eid "user" query with
    | .ok _ => .ok { st with chat := st.chat ++ [(eid, "user", query)] }
    | .error e => .error (e, st)
  else if node.type = "knowledgeBase" then
    let query := kbScan input
    if truthy query then
      let document_ids := jget node.data "documentIds" (.arr [])
      let embedding_api_key := jget node.data "embeddingApiKey" .null
      if truthy document_ids then
        match orc.searchSimilar query document_ids embedding_api_key with
        | .error e => .error (e, st)
        | .ok similar =>
          let context := String.intercalate "\n" similar
          .ok (st.insertOut node.id (.obj [("context", .str context),
            ("type", .str "knowledge_base"), ("embedding_api_key", embedding_api_key)]))
      else
        .ok (st.insertOut node.id (.obj [("context", .str ""),
          ("type", .str "knowledge_base"), ("embedding_api_key", embedding_api_key)]))
    else
      .ok (st.insertOut node.id (.obj [("context", .str ""),
        ("type", .str "knowledge_base"),
        ("embedding_api_key", jget node.data "embeddingApiKey" .null)]))
  else if node.type = "llmEngine" then
    let qc := llmScan input (.str "") (.str "")
    let query :=
      if truthy qc.1 then qc.1
      else jget node.data "query" (.str "What can you help me with?")
    let model := jget node.data "model" .null
    if !truthy model then .error ("Model is required for LLM Engine node", st)
    else
      let custom_prompt := jget node.data "customPrompt" .null
      let use_web_search := jget node.data "useWebSearch" (.bool false)
      let api_key := jget node.data "apiKey" .null
      match orc.generate query model qc.2 custom_prompt use_web_search api_key with
      | .error e => .error (e, st)
      | .ok (resp, sources) =>
        .ok (st.insertOut node.id (.obj [("response", .str resp),
          ("sources", .arr (sources.map .str)), ("type", .str "llm_response")]))
  else if node.type = "output" then
    let rs := outScan input
    let st := st.insertOut node.id (.obj [("response", rs.1),
      ("sources", rs.2), ("type", .str "output")])
    match orc.commitChat eid "assistant" rs.1 with
    | .ok _ => .ok { st with chat := st.chat ++ [(eid, "assistant", rs.1)] }
    | .error e => .error (e, st)
  else .ok st

/-- `WorkflowService._process_node` (lines 182-306): run the `try` body; the
`except` handler converts any escaping exception into the node's
`{"error": ..., "type": "error"}` output, written over whatever state the
body left behind (so an entry written just before a failing chat commit is
overwritten by the error entry, as in the source). -/
def processNode (orc : Oracles) (eid : Nat) (node : Node)
    (input : List (String × JVal)) (st : RunState) : RunState :=
  match processNodeBody orc eid node input st with
  | .ok st' => st'
  | .error (e, st') => st'.insertOut node.id (errObj e)

/-- `WorkflowService._get_node_input` (lines 163-180). -/
def getNodeInput (node_id : String) (edges : List Edge)
    (node_outputs : List (String × JVal)) (initial_input : List (String × JVal)) :
    List (String × JVal) :=
  edges.foldl (fun acc e =>
    if e.target = node_id then
      match node_outputs.lookup e.source with
      | some v => dictInsert acc e.source v
      | none => acc
    else acc) [("initial_input", .obj initial_input)]

/-- The readiness check of the main loop (lines 126-130): every edge whose
target is this node must have its source already processed. -/
def depsReady (edges : List Edge) (node_id : String) (processed : List String) :
    Bool :=
  edges.all (fun e => !(e.target = node_id && !(processed.contains e.source)))

/-- Python `set.add`: append only if absent (ghost list representation of the
`processed` set, preserving insertion order). -/
def addOnce (processed : List String) (k : String) : List String :=
  if k ∈ processed then processed else processed ++ [k]

/-- The start-node pre-phase (lines 110-114): every start node whose type is
`"userQuery"` is processed with the raw initial input.  Note there is no
membership check here — that mirrors the source. -/
def phase1 (orc : Oracles) (eid : Nat) (initialInput : List (String × JVal)) :
    List Node → List String → RunState → List String × RunState
  | [], processed, st => (processed, st)
  | n :: rest, processed, st =>
    if n.type = "userQuery" then
      let st' := processNode orc eid n initialInput
        { st with calls := st.calls ++ [n.id] }
      phase1 orc eid initialInput rest (addOnce processed n.id) st'
    else phase1 orc eid initialInput rest processed st

/-- One `for node in nodes:` pass of the main loop (lines 120-137). -/
def processPass (orc : Oracles) (eid : Nat) (edges : List Edge)
    (initialInput : List (String × JVal)) :
    List Node → List String → RunState → List String × RunState
  | [], processed, st => (processed, st)
  | n :: rest, processed, st =>
    if n.id ∈ processed then processPass orc eid edges initialInput rest processed st
    else if depsReady edges n.id processed then
      let input := getNodeInput n.id edges st.outputs initialInput
      let st' := processNode orc eid n input { st with calls := st.calls ++ [n.id] }
      processPass orc eid edges initialInput rest (processed ++ [n.id]) st'
    else processPass orc eid edges initialInput rest processed st

/-- The `while len(processed) < len(nodes):` loop (lines 117-140), embedded
with a fuel index; a pass that makes no progress (`progress_made` false, i.e.
`processed` did not grow) breaks out.  `processLoop_fuel_irrel` below shows
that with the fuel used by `processWorkflowNodes` the `0` case is never the
reason the loop stops. -/
def processLoop (orc : Oracles) (eid : Nat) (nodes : List Node)
    (edges : List Edge) (initialInput : List (String × JVal)) :
    Nat → List String → RunState → List String × RunState
  | 0, processed, st => (processed, st)
  | fuel + 1, processed, st =>
    if processed.length < nodes.length then
      let r := processPass orc eid edges initialInput nodes processed st
      if processed.length < r.1.length then
        processLoop orc eid nodes edges initialInput fuel r.1 r.2
      else r
    else (processed, st)

/-- The result dict of `_process_workflow_nodes` (lines 150-154), extended
with the final `processed` set and run state for the theorems below. -/
structure RunResult where
  success : Bool
  output : List (String × JVal)
  log : String
  processed : List String
  state : RunState
deriving DecidableEq

/-- `WorkflowService._process_workflow_nodes` (lines 75-161).  The adjacency
dict built on lines 87-93 is consumed only to compute `all_targets` (lines
96-98), which is exactly the set of edge targets, so start nodes are the
nodes whose id is not an edge target.  The `except` branch (lines 156-161) is
unreachable in this embedding (oracle failures are caught inside
`processNode`, persistence is infallible), so `success` is `true`. -/
def processWorkflowNodes (orc : Oracles) (nodes : List Node) (edges : List Edge)
    (initialInput : List (String × JVal)) (eid : Nat) : RunResult :=
  let starts := nodes.filter (fun n => !((edges.map Edge.target).contains n.id))
  let p1 := phase1 orc eid initialInput starts [] initState
  let pf := processLoop orc eid nodes edges initialInput (nodes.length + 1) p1.1 p1.2
  let output := nodes.foldl (fun acc n =>
    if n.type = "output" then
      match pf.2.outputs.lookup n.id with
      | some v => dictInsert acc n.id v
      | none => acc
    else acc) []
  ⟨true, output, "Processed " ++ toString pf.1.length ++ " nodes successfully",
    pf.1, pf.2⟩

/-- The status transition of `execute_workflow` (workflow_service.py line 52):
`"completed" if result.get("success") else "failed"`. -/
def executionStatus (r : RunResult) : String :=
  if r.success then "completed" else "failed"

/-- The four node kinds handled by `_process_node`. -/
def knownKinds : List String := ["userQuery", "knowledgeBase", "llmEngine", "output"]

/-! ## Embedding of `LLMService` (`backend/app/services/llm_service.py`)

The actual HTTP calls (`openai` chat completion, the Gemini request, web
search) are oracles; `.error msg` models the call raising an exception whose
`str` is `msg`.  The parameter types follow the Python annotations of
`generate_response` (`query: str, model: str, context: Optional[str],
custom_prompt: Optional[str], use_web_search: bool, api_key: Optional[str]`).
-/

/-- The value returned by `generate_response` (`schemas.LLMResponse`). -/
structure LLMResponse where
  response : String
  sources : List String
  model_used : String
deriving DecidableEq

/-- Oracles for the network calls of `LLMService`.  `openaiCall` and
`geminiCall` take (system prompt, query, model, api key); `webSearch` is
`_perform_web_search`, which never raises (its inner failures are swallowed
and yield empty results), returning (context, sources). -/
structure LLMOracles where
  openaiCall : String → String → String → String → Except String String
  geminiCall : String → String → String → String → Except String String
  webSearch : String → String × List String

/-- Python truthiness of an `Optional[str]` (`if not api_key:`,
`if context:`): `None` and `""` are falsy. -/
def optFalsy : Option String → Bool
  | none => true
  | some s => s = ""

/-- Python `str.startswith(prefix)` (`model.startswith("gpt")` etc.),
expressed over the underlying character list so that it evaluates inside the
kernel. -/
def strStartsWith (s pre : String) : Bool :=
  pre.data.isPrefixOf s.data

/-- `LLMService._build_system_prompt` (llm_service.py lines 59-80). -/
def buildSystemPrompt (custom_prompt context : Option String)
    (web_context : String) : String :=
  let base := if optFalsy custom_prompt then "You are a helpful AI assistant."
    else custom_prompt.getD ""
  if !optFalsy context || web_context ≠ "" then
    base ++ "\n\nAdditional Context:\n"
      ++ (if !optFalsy context then
            "Document Context: " ++ context.getD "" ++ "\n" else "")
      ++ (if web_context ≠ "" then
            "Web Search Results: " ++ web_context ++ "\n" else "")
      ++ "\nUse this context to provide accurate and relevant responses."
  else base

/-- `LLMService._call_openai` (lines 82-99): raises `ValueError` when no api
key is provided, else performs the HTTP call. -/
def callOpenai (orc : LLMOracles) (system_prompt query model : String)
    (api_key : Option String) : Except String String :=
  if optFalsy api_key then
    .error "API key is required for OpenAI models. Please provide your API key in the LLM component."
  else orc.openaiCall system_prompt query model (api_key.getD "")

/-- `LLMService._call_gemini` (lines 101-147): raises `ValueError` when no
api key is provided, else performs the HTTP call. -/
def callGemini (orc : LLMOracles) (system_prompt query model : String)
    (api_key : Option String) : Except String String :=
  if optFalsy api_key then .error "API key is required for Gemini models"
  else orc.geminiCall system_prompt query model (api_key.getD "")

/-- `LLMService.generate_response` (lines 16-57).  Every exception escaping
the model dispatch is caught and converted into an ordinary `LLMResponse`
whose text is `"Error generating response: "` followed by the message, with
empty `sources` — the function itself never raises and its return type does
not distinguish failures. -/
def generate_response (orc : LLMOracles) (query model : String)
    (context custom_prompt : Option String) (use_web_search : Bool)
    (api_key : Option String) : LLMResponse :=
  let ws := if use_web_search then orc.webSearch query else ("", [])
  let system_prompt := buildSystemPrompt custom_prompt context ws.1
  let attempt : Except String String :=
    if strStartsWith model "gpt" then callOpenai orc system_prompt query model api_key
    else if strStartsWith model "gemini" then
      callGemini orc system_prompt query model api_key
    else .error ("Unsupported model: " ++ model)
  match attempt with
  | .ok text => ⟨text, ws.2, model⟩
  | .error e => ⟨"Error generating response: " ++ e, [], model⟩

/-- The list of values the llmEngine scan reads from entries tagged `tag`:
for each merged-input entry that is a dict whose `type` field equals `tag`,
the value of its `field` key (default `""`), in iteration order.  Used to
state which of several same-tagged entries the scan ends up using. -/
def taggedValues (tag field : String) : List (String × JVal) → List JVal
  | [] => []
  | (_, v) :: rest =>
    match v with
    | .obj fields =>
      match fields.lookup "type" with
      | some (.str t) =>
        if t = tag then jget fields field (.str "") :: taggedValues tag field rest
        else taggedValues tag field rest
      | _ => taggedValues tag field rest
    | _ => taggedValues tag field rest

/-- A `user_query`-tagged node output carrying query text `q` (the shape the
`userQuery` handler writes). -/
def uqObj (q : String) : JVal :=
  .obj [("query", .str q), ("type", .str "user_query")]

/-- A trivial total instantiation of the collaborators, used to evaluate the
engine on concrete inputs. -/
def defaultOracles : Oracles :=
  ⟨fun _ _ _ _ _ _ => .ok ("generated", []), fun _ _ _ => .ok ["passage"],
   fun _ _ _ => .ok ()⟩

/-- A collaborator instantiation whose generation result echoes the query
text it was handed, used to observe which query the llmEngine handler
selected from its merged input. -/
def echoOracles : Oracles :=
  ⟨fun q _ _ _ _ _ => .ok ((match q with | .str s => s | _ => ""), []),
   fun _ _ _ => .ok [], fun _ _ _ => .ok ()⟩

/-- A collaborator instantiation whose chat-history commit always fails
(persistence unavailable), used to exercise the `except` path that runs
after a node's output has already been written. -/
def failDbOracles : Oracles :=
  ⟨fun _ _ _ _ _ _ => .ok ("generated", []), fun _ _ _ => .ok ["passage"],
   fun _ _ _ => .error "database commit failed"⟩

/-- A trivial total instantiation of the `LLMService` network calls. -/
def anyLLMOracles : LLMOracles :=
  ⟨fun _ _ _ _ => .ok "ok", fun _ _ _ _ => .ok "ok", fun _ => ("", [])⟩

/-- An `LLMService` oracle whose OpenAI call succeeds and returns exactly the
text of the missing-credential failure message, used to show a credentialed
success can be value-identical to the credential-missing outcome. -/
def okMsgLLMOracles : LLMOracles :=
  ⟨fun _ _ _ _ => .ok "Error generating response: API key is required for OpenAI models. Please provide your API key in the LLM component.",
   fun _ _ _ _ => .ok "", fun _ => ("", [])⟩

/-! ## Basic lemmas about the dict and set operations -/

theorem lookup_dictInsert_self (l : List (String × JVal)) (k : String) (v : JVal) :
    (dictInsert l k v).lookup k = some v := by
  induction l with
  | nil => simp [dictInsert, List.lookup]
  | cons p rest ih =>
    obtain ⟨k', v'⟩ := p
    by_cases h : k' = k
    · simp [dictInsert, h, List.lookup]
    · simp only [dictInsert, if_neg h, List.lookup]
      have : (k == k') = false := by
        simp [beq_iff_eq]; exact fun hh => h hh.symm
      simp [this, ih]

theorem lookup_dictInsert_ne (l : List (String × JVal)) (k k' : String) (v : JVal)
    (h : k' ≠ k) : (dictInsert l k v).lookup k' = l.lookup k' := by
  induction l with
  | nil =>
    have : (k' == k) = false := by simp [beq_iff_eq, h]
    simp [dictInsert, List.lookup, this]
  | cons p rest ih =>
    obtain ⟨k0, v0⟩ := p
    by_cases h0 : k0 = k
    · subst h0
      simp only [dictInsert, if_pos rfl, List.lookup]
      have : (k' == k0) = false := by simp [beq_iff_eq, h]
      simp [this]
    · simp only [dictInsert, if_neg h0, List.lookup]
      by_cases h1 : k' = k0
      · simp [h1]
      · have : (k' == k0) = false := by simp [beq_iff_eq, h1]
        simp [this, ih]

theorem isSome_lookup_dictInsert (l : List (String × JVal)) (k k' : String)
    (v : JVal) (h : (l.lookup k').isSome = true) :
    ((dictInsert l k v).lookup k').isSome = true := by
  by_cases hk : k' = k
  · subst hk; rw [lookup_dictInsert_self]; rfl
  · rw [lookup_dictInsert_ne _ _ _ _ hk]; exact h

theorem mem_addOnce {processed : List String} {k k' : String} :
    k' ∈ addOnce processed k ↔ k' ∈ processed ∨ k' = k := by
  unfold addOnce
  by_cases h : k ∈ processed
  · simp only [if_pos h]
    constructor
    · exact Or.inl
    · rintro (h1 | rfl)
      · exact h1
      · exact h
  · simp [if_neg h]

theorem addOnce_of_not_mem {processed : List String} {k : String}
    (h : k ∉ processed) : addOnce processed k = processed ++ [k] := by
  simp [addOnce, h]

/-! ## Structural lemmas about `processNode` -/

theorem dictInsert_dictInsert_same (l : List (String × JVal)) (k : String)
    (v w : JVal) : dictInsert (dictInsert l k v) k w = dictInsert l k w := by
  induction l with
  | nil => simp [dictInsert]
  | cons p rest ih =>
    obtain ⟨k0, v0⟩ := p
    by_cases h : k0 = k
    · simp [dictInsert, h]
    · simp [dictInsert, h, ih]

/-- If the `try` body of `_process_node` finishes without raising, the state
it returns either is untouched (the silent fall-through for an unknown node
type) or differs from the input state only by one write to `node_outputs` at
the node's own id (plus chat rows). -/
theorem processNodeBody_ok_shape (orc : Oracles) (eid : Nat) (node : Node)
    (input : List (String × JVal)) (st st' : RunState)
    (hb : processNodeBody orc eid node input st = .ok st') :
    (st' = st ∧ node.type ∉ knownKinds) ∨
    ∃ v ch, st' = { st with
        outputs := dictInsert st.outputs node.id v,
        writes := st.writes ++ [node.id],
        chat := ch } := by
  unfold processNodeBody at hb
  repeat' first
    | split at hb
    | simp only [] at hb
  all_goals first
    | exact Except.noConfusion hb
    | (injection hb with hb; subst hb; first
        | exact Or.inr ⟨_, _, rfl⟩
        | exact Or.inl ⟨rfl, by simp [knownKinds]; tauto⟩)

/-- If the body raises, the state at raise time is either the input state
(the raise happened before any write: missing model, retrieval or generation
collaborator failure) or the input state plus the node's own output write
(a chat-history commit failing after the userQuery/output branch has already
written the node's output). -/
theorem processNodeBody_error_shape (orc : Oracles) (eid : Nat) (node : Node)
    (input : List (String × JVal)) (st st1 : RunState) (e : String)
    (hb : processNodeBody orc eid node input st = .error (e, st1)) :
    st1 = st ∨
    ∃ v ch, st1 = { st with
        outputs := dictInsert st.outputs node.id v,
        writes := st.writes ++ [node.id],
        chat := ch } := by
  unfold processNodeBody at hb
  repeat' first
    | split at hb
    | simp only [] at hb
  all_goals first
    | exact Except.noConfusion hb
    | (injection hb with hb; injection hb with hb1 hb2; subst hb2; first
        | exact Or.inl rfl
        | exact Or.inr ⟨_, _, rfl⟩)

/-- When the chat-commit collaborator never fails, a raise out of the body
can only happen before any write: the carried state is the input state. -/
theorem processNodeBody_error_db_ok (orc : Oracles) (eid : Nat) (node : Node)
    (input : List (String × JVal)) (st st1 : RunState) (e : String)
    (hdb : ∀ i r c, orc.commitChat i r c = .ok ())
    (hb : processNodeBody orc eid node input st = .error (e, st1)) :
    st1 = st := by
  unfold processNodeBody at hb
  simp only [hdb] at hb
  repeat' first
    | split at hb
    | simp only [] at hb
  all_goals first
    | exact Except.noConfusion hb
    | (injection hb with hb; injection hb with hb1 hb2; exact hb2.symm)

/-- `_process_node` either leaves the state untouched (unknown node type) or
writes only at the node's own id — once in the normal case, twice when a
chat-commit failure makes the `except` handler overwrite the entry already
written by the userQuery/output branch. -/
theorem processNode_shape (orc : Oracles) (eid : Nat) (node : Node)
    (input : List (String × JVal)) (st : RunState) :
    (processNode orc eid node input st = st ∧ node.type ∉ knownKinds) ∨
    ∃ v ws ch, processNode orc eid node input st = { st with
        outputs := dictInsert st.outputs node.id v,
        writes := st.writes ++ ws,
        chat := ch } ∧ (ws = [node.id] ∨ ws = [node.id, node.id]) := by
  unfold processNode
  rcases hb : processNodeBody orc eid node input st with ⟨e, st1⟩ | st'
  · rcases processNodeBody_error_shape orc eid node input st st1 e hb with
      heq | ⟨v, ch, heq⟩
    · rw [heq]
      exact Or.inr ⟨errObj e, [node.id], st.chat, rfl, Or.inl rfl⟩
    · rw [heq]
      refine Or.inr ⟨errObj e, [node.id, node.id], ch, ?_, Or.inr rfl⟩
      unfold RunState.insertOut
      simp [dictInsert_dictInsert_same]
  · rcases processNodeBody_ok_shape orc eid node input st st' hb with
      ⟨h, hu⟩ | ⟨v, ch, h⟩
    · exact Or.inl ⟨h, hu⟩
    · exact Or.inr ⟨v, [node.id], ch, h, Or.inl rfl⟩

/-- For the four handled node kinds, `_process_node` always ends up having
written at the node's own id (the kind's output, or the error output). -/
theorem processNode_known_shape (orc : Oracles) (eid : Nat) (node : Node)
    (input : List (String × JVal)) (st : RunState)
    (h : node.type ∈ knownKinds) :
    ∃ v ws ch, processNode orc eid node input st = { st with
        outputs := dictInsert st.outputs node.id v,
        writes := st.writes ++ ws,
        chat := ch } := by
  rcases processNode_shape orc eid node input st with ⟨_, hu⟩ | ⟨v, ws, ch, hh, _⟩
  · exact absurd h hu
  · exact ⟨v, ws, ch, hh⟩

/-- A node whose type is none of the four handled kinds is silently skipped:
the `if`/`elif` chain of `_process_node` matches nothing, no output is
written, no error is raised, and the state is returned unchanged. -/
theorem processNode_unknown (orc : Oracles) (eid : Nat) (node : Node)
    (input : List (String × JVal)) (st : RunState)
    (h : node.type ∉ knownKinds) :
    processNode orc eid node input st = st := by
  simp only [knownKinds, List.mem_cons, List.mem_singleton, not_or] at h
  obtain ⟨h1, h2, h3, h4⟩ := h
  unfold processNode processNodeBody
  simp [h1, h2, h3, h4]

/-- The `except` handler of `_process_node`: an exception escaping the body
becomes the node's error output, written over the state the body left
behind. -/
theorem processNode_of_body_error (orc : Oracles) (eid : Nat) (node : Node)
    (input : List (String × JVal)) (st st1 : RunState) (e : String)
    (hb : processNodeBody orc eid node input st = .error (e, st1)) :
    processNode orc eid node input st = st1.insertOut node.id (errObj e) := by
  unfold processNode
  rw [hb]

theorem processNode_calls (orc : Oracles) (eid : Nat) (node : Node)
    (input : List (String × JVal)) (st : RunState) :
    (processNode orc eid node input st).calls = st.calls := by
  rcases processNode_shape orc eid node input st with ⟨h, _⟩ | ⟨v, ws, ch, h, _⟩ <;>
    rw [h]

/-- When the chat-commit collaborator never fails, `_process_node` appends
at most one key — the node's own id — to the ghost write log. -/
theorem processNode_writes_db_ok (orc : Oracles) (eid : Nat) (node : Node)
    (input : List (String × JVal)) (st : RunState)
    (hdb : ∀ i r c, orc.commitChat i r c = .ok ()) :
    (processNode orc eid node input st).writes = st.writes ∨
    (processNode orc eid node input st).writes = st.writes ++ [node.id] := by
  unfold processNode
  rcases hb : processNodeBody orc eid node input st with ⟨e, st1⟩ | st'
  · have := processNodeBody_error_db_ok orc eid node input st st1 e hdb hb
    subst this
    exact Or.inr rfl
  · rcases processNodeBody_ok_shape orc eid node input st st' hb with
      ⟨rfl, _⟩ | ⟨v, ch, rfl⟩
    · exact Or.inl rfl
    · exact Or.inr rfl

/-- Frame property: `_process_node` never touches another node's output. -/
theorem processNode_frame (orc : Oracles) (eid : Nat) (node : Node)
    (input : List (String × JVal)) (st : RunState) (k : String)
    (hk : k ≠ node.id) :
    (processNode orc eid node input st).outputs.lookup k = st.outputs.lookup k := by
  rcases processNode_shape orc eid node input st with ⟨h, _⟩ | ⟨v, ws, ch, h, _⟩
  · rw [h]
  · rw [h]
    exact lookup_dictInsert_ne _ _ _ _ hk

/-- An output entry present before `_process_node` runs is still present
afterwards. -/
theorem processNode_outputs_mono (orc : Oracles) (eid : Nat) (node : Node)
    (input : List (String × JVal)) (st : RunState) (k : String)
    (h : (st.outputs.lookup k).isSome = true) :
    ((processNode orc eid node input st).outputs.lookup k).isSome = true := by
  rcases processNode_shape orc eid node input st with ⟨hh, _⟩ | ⟨v, ws, ch, hh, _⟩
  · rw [hh]; exact h
  · rw [hh]
    exact isSome_lookup_dictInsert _ _ _ _ h

/-- After processing a node of one of the four handled kinds, that node's
output entry exists. -/
theorem processNode_known_self (orc : Oracles) (eid : Nat) (node : Node)
    (input : List (String × JVal)) (st : RunState)
    (h : node.type ∈ knownKinds) :
    ((processNode orc eid node input st).outputs.lookup node.id).isSome = true := by
  obtain ⟨v, ws, ch, hh⟩ := processNode_known_shape orc eid node input st h
  rw [hh]
  show ((dictInsert st.outputs node.id v).lookup node.id).isSome = true
  rw [lookup_dictInsert_self]
  rfl

/-- The `llmEngine` branch with a falsy `model` configuration raises
`ValueError("Model is required for LLM Engine node")` out of the body,
before any write (the carried state is the input state). -/
theorem processNodeBody_llm_noModel (orc : Oracles) (eid : Nat) (node : Node)
    (input : List (String × JVal)) (st : RunState)
    (ht : node.type = "llmEngine")
    (hm : truthy (jget node.data "model" .null) = false) :
    processNodeBody orc eid node input st =
      .error ("Model is required for LLM Engine node", st) := by
  unfold processNodeBody
  simp [ht, hm]

/-- An `llmEngine` node with falsy `model` ends up with the missing-model
error output. -/
theorem processNode_llm_noModel (orc : Oracles) (eid : Nat) (node : Node)
    (input : List (String × JVal)) (st : RunState)
    (ht : node.type = "llmEngine")
    (hm : truthy (jget node.data "model" .null) = false) :
    processNode orc eid node input st =
      st.insertOut node.id (errObj "Model is required for LLM Engine node") :=
  processNode_of_body_error orc eid node input st st _
    (processNodeBody_llm_noModel orc eid node input st ht hm)
/-! ## Invariant propagation through the orchestration loop -/

/-- An invariant preserved by each node-processing step of a pass is
preserved by the whole pass (lines 120-137). -/
theorem processPass_inv (orc : Oracles) (eid : Nat) (edges : List Edge)
    (initialInput : List (String × JVal)) (nodes : List Node)
    (P : List String → RunState → Prop)
    (hstep : ∀ n ∈ nodes, ∀ processed st, n.id ∉ processed →
      depsReady edges n.id processed = true → P processed st →
      P (processed ++ [n.id])
        (processNode orc eid n (getNodeInput n.id edges st.outputs initialInput)
          { st with calls := st.calls ++ [n.id] })) :
    ∀ sub : List Node, (∀ n ∈ sub, n ∈ nodes) → ∀ processed st, P processed st →
      P (processPass orc eid edges initialInput sub processed st).1
        (processPass orc eid edges initialInput sub processed st).2 := by
  intro sub
  induction sub with
  | nil => intro _ processed st h; simpa [processPass] using h
  | cons n rest ih =>
    intro hsub processed st h
    simp only [processPass]
    by_cases hmem : n.id ∈ processed
    · simp only [if_pos hmem]
      exact ih (fun m hm => hsub m (List.mem_cons_of_mem _ hm)) processed st h
    · simp only [if_neg hmem]
      by_cases hdeps : depsReady edges n.id processed = true
      · simp only [if_pos hdeps]
        exact ih (fun m hm => hsub m (List.mem_cons_of_mem _ hm)) _ _
          (hstep n (hsub n (List.mem_cons_self _ _)) processed st hmem hdeps h)
      · simp only [if_neg hdeps]
        exact ih (fun m hm => hsub m (List.mem_cons_of_mem _ hm)) processed st h

/-- An invariant preserved by a whole pass is preserved by the `while` loop
(lines 117-140). -/
theorem processLoop_inv (orc : Oracles) (eid : Nat) (nodes : List Node)
    (edges : List Edge) (initialInput : List (String × JVal))
    (P : List String → RunState → Prop)
    (hpass : ∀ processed st, P processed st →
      P (processPass orc eid edges initialInput nodes processed st).1
        (processPass orc eid edges initialInput nodes processed st).2) :
    ∀ fuel processed st, P processed st →
      P (processLoop orc eid nodes edges initialInput fuel processed st).1
        (processLoop orc eid nodes edges initialInput fuel processed st).2 := by
  intro fuel
  induction fuel with
  | zero => intro processed st h; simpa [processLoop] using h
  | succ fuel ih =>
    intro processed st h
    simp only [processLoop]
    by_cases h1 : processed.length < nodes.length
    · simp only [if_pos h1]
      by_cases h2 : processed.length <
          (processPass orc eid edges initialInput nodes processed st).1.length
      · simp only [if_pos h2]
        exact ih _ _ (hpass processed st h)
      · simp only [if_neg h2]
        exact hpass processed st h
    · simp only [if_neg h1]
      exact h

/-- An invariant preserved by each userQuery-start step is preserved by the
start-node pre-phase (lines 110-114). -/
theorem phase1_inv (orc : Oracles) (eid : Nat)
    (initialInput : List (String × JVal)) (starts0 : List Node)
    (P : List String → RunState → Prop)
    (hstep : ∀ n ∈ starts0, n.type = "userQuery" → ∀ processed st,
      P processed st →
      P (addOnce processed n.id)
        (processNode orc eid n initialInput
          { st with calls := st.calls ++ [n.id] })) :
    ∀ sub : List Node, (∀ n ∈ sub, n ∈ starts0) → ∀ processed st, P processed st →
      P (phase1 orc eid initialInput sub processed st).1
        (phase1 orc eid initialInput sub processed st).2 := by
  intro sub
  induction sub with
  | nil => intro _ processed st h; simpa [phase1] using h
  | cons n rest ih =>
    intro hsub processed st h
    simp only [phase1]
    by_cases ht : n.type = "userQuery"
    · simp only [if_pos ht]
      exact ih (fun m hm => hsub m (List.mem_cons_of_mem _ hm)) _ _
        (hstep n (hsub n (List.mem_cons_self _ _)) ht processed st h)
    · simp only [if_neg ht]
      exact ih (fun m hm => hsub m (List.mem_cons_of_mem _ hm)) processed st h

/-- Stronger form of `phase1_inv` for runs over distinct node ids not yet in
`processed`: then each step's `set.add` is a genuine append of a fresh id. -/
theorem phase1_inv_strong (orc : Oracles) (eid : Nat)
    (initialInput : List (String × JVal)) (starts0 : List Node)
    (P : List String → RunState → Prop)
    (hstep : ∀ n ∈ starts0, n.type = "userQuery" → ∀ processed st,
      n.id ∉ processed → P processed st →
      P (processed ++ [n.id])
        (processNode orc eid n initialInput
          { st with calls := st.calls ++ [n.id] })) :
    ∀ sub : List Node, (∀ n ∈ sub, n ∈ starts0) → (sub.map Node.id).Nodup →
      ∀ processed st, (∀ n ∈ sub, n.id ∉ processed) → P processed st →
      P (phase1 orc eid initialInput sub processed st).1
        (phase1 orc eid initialInput sub processed st).2 := by
  intro sub
  induction sub with
  | nil => intro _ _ processed st _ h; simpa [phase1] using h
  | cons n rest ih =>
    intro hsub hnd processed st hfresh h
    have hndrest : (rest.map Node.id).Nodup := (List.nodup_cons.mp hnd).2
    have hnotin : n.id ∉ rest.map Node.id := (List.nodup_cons.mp hnd).1
    simp only [phase1]
    by_cases ht : n.type = "userQuery"
    · simp only [if_pos ht]
      rw [addOnce_of_not_mem (hfresh n (List.mem_cons_self _ _))]
      refine ih (fun m hm => hsub m (List.mem_cons_of_mem _ hm)) hndrest _ _
        (fun m hm => ?_)
        (hstep n (hsub n (List.mem_cons_self _ _)) ht processed st
          (hfresh n (List.mem_cons_self _ _)) h)
      intro hcon
      rcases List.mem_append.mp hcon with hc1 | hc2
      · exact hfresh m (List.mem_cons_of_mem _ hm) hc1
      · have : m.id = n.id := List.mem_singleton.mp hc2
        exact hnotin (this ▸ List.mem_map_of_mem Node.id hm)
    · simp only [if_neg ht]
      exact ih (fun m hm => hsub m (List.mem_cons_of_mem _ hm)) hndrest processed st
        (fun m hm => hfresh m (List.mem_cons_of_mem _ hm)) h

/-- If `len(processed) < len(nodes)` fails, the loop exits immediately with
the current state, whatever fuel is left. -/
theorem processLoop_stop (orc : Oracles) (eid : Nat) (nodes : List Node)
    (edges : List Edge) (initialInput : List (String × JVal)) (fuel : Nat)
    (processed : List String) (st : RunState)
    (h : ¬ processed.length < nodes.length) :
    processLoop orc eid nodes edges initialInput fuel processed st =
      (processed, st) := by
  cases fuel with
  | zero => rfl
  | succ fuel => simp only [processLoop, if_neg h]

/-- The fuel index of `processLoop` is irrelevant as soon as it exceeds
`len(nodes) - len(processed)`: each iteration that continues strictly grows
`processed`, so the Python `while` loop (which has no fuel) performs exactly
the iterations the fuelled embedding performs.  `processWorkflowNodes` calls
the loop with fuel `len(nodes) + 1`, which always satisfies this bound. -/
theorem processLoop_fuel_irrel (orc : Oracles) (eid : Nat) (nodes : List Node)
    (edges : List Edge) (initialInput : List (String × JVal)) :
    ∀ fuel processed st, nodes.length - processed.length < fuel →
    processLoop orc eid nodes edges initialInput fuel processed st =
      processLoop orc eid nodes edges initialInput (fuel + 1) processed st := by
  intro fuel
  induction fuel with
  | zero => intro processed st h; exact absurd h (Nat.not_lt_zero _)
  | succ fuel ih =>
    intro processed st h
    by_cases h1 : processed.length < nodes.length
    · simp only [processLoop, if_pos h1]
      by_cases h2 : processed.length <
          (processPass orc eid edges initialInput nodes processed st).1.length
      · simp only [if_pos h2]
        apply ih
        have hmeas : nodes.length -
            (processPass orc eid edges initialInput nodes processed st).1.length <
            nodes.length - processed.length := Nat.sub_lt_sub_left h1 h2
        omega
      · simp only [if_neg h2]
    · rw [processLoop_stop orc eid nodes edges initialInput _ _ _ h1,
        processLoop_stop orc eid nodes edges initialInput _ _ _ h1]

theorem processNodeBody_kb_shape (orc : Oracles) (eid : Nat) (node : Node)
    (input : List (String × JVal)) (st st' : RunState)
    (ht : node.type = "knowledgeBase")
    (hb : processNodeBody orc eid node input st = .ok st') :
    ∃ ctx, st' = st.insertOut node.id (.obj [("context", ctx),
      ("type", .str "knowledge_base"),
      ("embedding_api_key", jget node.data "embeddingApiKey" .null)]) := by
  unfold processNodeBody at hb
  simp only [ht, String.reduceEq, if_false, if_true] at hb
  repeat' first
    | split at hb
    | simp only [] at hb
  all_goals first
    | exact Except.noConfusion hb
    | (injection hb with hb; subst hb; exact ⟨_, rfl⟩)

theorem lookup_foldl_getNodeInput_stable (t : String)
    (outputs : List (String × JVal)) (s : String) (v : JVal)
    (hv : outputs.lookup s = some v) :
    ∀ (edges : List Edge) (acc : List (String × JVal)),
      acc.lookup s = some v →
      (edges.foldl (fun acc e =>
        if e.target = t then
          match outputs.lookup e.source with
          | some w => dictInsert acc e.source w
          | none => acc
        else acc) acc).lookup s = some v := by
  intro edges
  induction edges with
  | nil => intro acc h; exact h
  | cons e rest ih =>
    intro acc h
    simp only [List.foldl_cons]
    by_cases htar : e.target = t
    · simp only [if_pos htar]
      rcases hw : outputs.lookup e.source with _ | w
      · exact ih acc h
      · by_cases hs : e.source = s
        · subst hs
          rw [hv] at hw
          injection hw with hw
          subst hw
          exact ih _ (lookup_dictInsert_self acc e.source v)
        · refine ih _ ?_
          rw [lookup_dictInsert_ne _ _ _ _ (fun hh => hs hh.symm)]
          exact h
    · simp only [if_neg htar]
      exact ih acc h

theorem lookup_foldl_getNodeInput_of_edge (s t : String)
    (outputs : List (String × JVal)) (v : JVal) (hv : outputs.lookup s = some v) :
    ∀ (edges : List Edge) (acc : List (String × JVal)), Edge.mk s t ∈ edges →
      (edges.foldl (fun acc e =>
        if e.target = t then
          match outputs.lookup e.source with
          | some w => dictInsert acc e.source w
          | none => acc
        else acc) acc).lookup s = some v := by
  intro edges
  induction edges with
  | nil => intro acc he; exact absurd he (List.not_mem_nil _)
  | cons e rest ih =>
    intro acc he
    simp only [List.foldl_cons]
    rcases List.mem_cons.mp he with rfl | hmem
    · simp only [if_pos rfl, hv]
      exact lookup_foldl_getNodeInput_stable t outputs s v hv rest _
        (lookup_dictInsert_self _ s v)
    · exact ih _ hmem

/-- A predecessor's output entry is carried verbatim into the merged input of
every node it has an edge to. -/
theorem lookup_getNodeInput_of_edge (s t : String)
    (outputs init : List (String × JVal)) (v : JVal)
    (edges : List Edge) (he : Edge.mk s t ∈ edges)
    (hv : outputs.lookup s = some v) :
    (getNodeInput t edges outputs init).lookup s = some v := by
  unfold getNodeInput
  exact lookup_foldl_getNodeInput_of_edge s t outputs v hv edges _ he

theorem getLastD_cons (L : List JVal) : ∀ (x d : JVal),
    ((x :: L).getLast?).getD d = (L.getLast?).getD x := by
  induction L with
  | nil => intro x d; rfl
  | cons y L ih =>
    intro x d
    rw [List.getLast?_cons_cons]
    rcases hy : (y :: L).getLast? with _ | z
    · exact absurd hy (by simp)
    · rfl

theorem llmScan_last : ∀ (input : List (String × JVal)) (q c : JVal),
    llmScan input q c =
      ((taggedValues "user_query" "query" input).getLast?.getD q,
       (taggedValues "knowledge_base" "context" input).getLast?.getD c) := by
  intro input
  induction input with
  | nil => intro q c; rfl
  | cons p rest ih =>
    intro q c
    obtain ⟨k, v⟩ := p
    rcases v with _ | b | s | l | fields
    case null => simp only [llmScan, taggedValues]; exact ih q c
    case bool => simp only [llmScan, taggedValues]; exact ih q c
    case str => simp only [llmScan, taggedValues]; exact ih q c
    case arr => simp only [llmScan, taggedValues]; exact ih q c
    case obj =>
      rcases hl : fields.lookup "type" with _ | tv
      · simp only [llmScan, taggedValues, hl]
        exact ih q c
      · rcases tv with _ | b | t | l2 | o2
        case null => simp only [llmScan, taggedValues, hl]; exact ih q c
        case bool => simp only [llmScan, taggedValues, hl]; exact ih q c
        case arr => simp only [llmScan, taggedValues, hl]; exact ih q c
        case obj => simp only [llmScan, taggedValues, hl]; exact ih q c
        case str =>
          by_cases ht : t = "user_query"
          · subst ht
            simp only [llmScan, taggedValues, hl, String.reduceEq, if_true, if_false]
            rw [ih (jget fields "query" (.str "")) c, getLastD_cons]
          · by_cases ht2 : t = "knowledge_base"
            · subst ht2
              simp only [llmScan, taggedValues, hl, String.reduceEq, if_true, if_false]
              rw [ih q (jget fields "context" (.str "")), getLastD_cons]
            · simp only [llmScan, taggedValues, hl, if_neg ht, if_neg ht2]
              exact ih q c

/-! ## Claim theorems -/

/-- C1: `_process_node` never raises outward.  Whenever its `try` body raises
(missing configuration, collaborator error, malformed predecessor data, a
failing chat-history commit — any `.error (e, st1)` escaping
`processNodeBody`, with `st1` the state at raise time), the failure is
caught and the node's entry in the output table ends as the error variant
carrying the failure message, while every other node's entry is untouched,
so the orchestration loop continues with the remaining nodes.
(`processNode` is total by type: no failure propagates out of it.) -/
theorem C1_node_failures_contained (orc : Oracles) (eid : Nat) (node : Node)
    (input : List (String × JVal)) (st st1 : RunState) (e : String)
    (h : processNodeBody orc eid node input st = .error (e, st1)) :
    processNode orc eid node input st = st1.insertOut node.id (errObj e) ∧
    (processNode orc eid node input st).outputs.lookup node.id =
      some (errObj e) ∧
    ∀ k : String, k ≠ node.id →
      (processNode orc eid node input st).outputs.lookup k =
        st.outputs.lookup k :=
  ⟨processNode_of_body_error orc eid node input st st1 e h,
   by
    rw [processNode_of_body_error orc eid node input st st1 e h]
    show (dictInsert st1.outputs node.id (errObj e)).lookup node.id = _
    rw [lookup_dictInsert_self],
   fun k hk => processNode_frame orc eid node input st k hk⟩

/-- C1 witness: an llmEngine node with no configured model makes the body
raise, and the node's output becomes the error variant. -/
theorem C1_witness :
    processNodeBody defaultOracles 1 ⟨"l", "llmEngine", []⟩ [] initState =
      .error ("Model is required for LLM Engine node", initState) ∧
    processNode defaultOracles 1 ⟨"l", "llmEngine", []⟩ [] initState =
      initState.insertOut "l" (errObj "Model is required for LLM Engine node") :=
  ⟨rfl, (C1_node_failures_contained defaultOracles 1 ⟨"l", "llmEngine", []⟩ []
    initState initState "Model is required for LLM Engine node" rfl).1⟩

/-- C4 counterexample: a node of kind `"banana"` is NOT failed fast — no
`UnsupportedNodeKindError` exists in the code; `_process_node`'s `if`/`elif`
chain matches nothing, the state comes back unchanged and no output (in
particular no error output) is recorded for the node. -/
theorem C4_counterexample :
    processNode defaultOracles 1 ⟨"x", "banana", []⟩ [] initState = initState ∧
    (processNode defaultOracles 1 ⟨"x", "banana", []⟩ []
      initState).outputs.lookup "x" = none :=
  ⟨rfl, rfl⟩

/-- C4 amended: for every node whose kind is not one of UserQuery,
KnowledgeBase, LlmEngine or Output, `_process_node` silently does nothing:
it raises no error and writes no output entry, returning the run state
completely unchanged (the orchestration loop still marks the node
processed). -/
theorem C4_unknown_kind_silently_skipped (orc : Oracles) (eid : Nat)
    (node : Node) (input : List (String × JVal)) (st : RunState)
    (h : node.type ∉ knownKinds) :
    processNode orc eid node input st = st :=
  processNode_unknown orc eid node input st h

/-- C4 witness: the amended statement at the concrete kind `"banana"`. -/
theorem C4_witness :
    (("banana" : String) ∉ knownKinds) ∧
    processNode defaultOracles 2 ⟨"y", "banana", []⟩
      [("initial_input", .obj [])] initState = initState :=
  ⟨by decide, C4_unknown_kind_silently_skipped defaultOracles 2 ⟨"y", "banana", []⟩
    [("initial_input", .obj [])] initState (by decide)⟩

/-- C5 counterexample: a node list with a duplicated id (`"a"` twice) is not
rejected — there is no `MalformedGraphError` and no validation: the run
executes nodes (the start phase even calls `_process_node` twice for the
duplicated userQuery id) and completes successfully. -/
theorem C5_counterexample :
    (processWorkflowNodes defaultOracles
      [⟨"a", "userQuery", []⟩, ⟨"a", "userQuery", []⟩] [] [] 1).success = true ∧
    (processWorkflowNodes defaultOracles
      [⟨"a", "userQuery", []⟩, ⟨"a", "userQuery", []⟩] [] [] 1).state.calls =
      ["a", "a"] ∧
    executionStatus (processWorkflowNodes defaultOracles
      [⟨"a", "userQuery", []⟩, ⟨"a", "userQuery", []⟩] [] [] 1) = "completed" :=
  ⟨rfl, rfl, rfl⟩

/-- C5 amended: graph loading performs no validation at all: for every node
list, edge list and initial input — including empty or duplicated node ids
and edges whose source or target is an unknown id — `_process_workflow_nodes`
proceeds to execute and returns success (nodes depending on unknown sources
are simply never ready and are silently skipped). -/
theorem C5_no_graph_validation (orc : Oracles) (nodes : List Node)
    (edges : List Edge) (initialInput : List (String × JVal)) (eid : Nat) :
    (processWorkflowNodes orc nodes edges initialInput eid).success = true :=
  rfl

/-- C7 counterexample: an llmEngine node whose merged input holds two
user_query-tagged entries, "A" then "B": with a generation oracle echoing
back the query text it was handed, the recorded response is "B" — the LAST
matching entry in iteration order — and not "A", the first, as the claim
predicts. -/
theorem C7_counterexample :
    (processNode echoOracles 1 ⟨"l", "llmEngine", [("model", .str "gpt-4")]⟩
        [("p1", uqObj "A"), ("p2", uqObj "B")] initState).outputs.lookup "l" =
      some (.obj [("response", .str "B"), ("sources", .arr []),
        ("type", .str "llm_response")]) ∧
    (processNode echoOracles 1 ⟨"l", "llmEngine", [("model", .str "gpt-4")]⟩
        [("p1", uqObj "A"), ("p2", uqObj "B")] initState).outputs.lookup "l" ≠
      some (.obj [("response", .str "A"), ("sources", .arr []),
        ("type", .str "llm_response")]) :=
  ⟨rfl, by decide⟩

/-- C7 amended: the llmEngine scan loop has no break, so each matching entry
overwrites the previous one: the handler uses the LAST user_query entry and
the LAST knowledge_base entry encountered in the mapping's iteration order
(`llmScan` is exactly the scan performed by the llmEngine branch of
`processNodeBody`; the first components default to the accumulators when no
entry matches). -/
theorem C7_llm_scan_uses_last (input : List (String × JVal)) (q c : JVal) :
    llmScan input q c =
      ((taggedValues "user_query" "query" input).getLast?.getD q,
       (taggedValues "knowledge_base" "context" input).getLast?.getD c) :=
  llmScan_last input q c

/-- C9 counterexample: `generate_response` called for model "gpt-4" with no
credential does not fail with a typed error: it returns an ordinary
`LLMResponse` — and a credentialed, fully successful call can return a
value-identical `LLMResponse`, so the two outcomes are indistinguishable to
the caller. -/
theorem C9_counterexample :
    generate_response anyLLMOracles "q" "gpt-4" none none false none =
      ⟨"Error generating response: API key is required for OpenAI models. Please provide your API key in the LLM component.", [], "gpt-4"⟩ ∧
    generate_response okMsgLLMOracles "q" "gpt-4" none none false (some "sk") =
      generate_response anyLLMOracles "q" "gpt-4" none none false none :=
  ⟨rfl, rfl⟩

/-- C9 amended: when no credential is supplied and the target model requires
one (a gpt- or gemini-prefixed model), the inner `ValueError` is caught by
`generate_response` itself and converted into an ordinary `LLMResponse`
whose text is the credential error message behind the prefix
"Error generating response: " and whose sources are empty — the function
returns normally instead of failing with a typed error. -/
theorem C9_missing_credential_ordinary_response (orc : LLMOracles)
    (query model : String) (context custom_prompt : Option String)
    (use_web_search : Bool) :
    (strStartsWith model "gpt" = true →
      generate_response orc query model context custom_prompt use_web_search none =
        ⟨"Error generating response: API key is required for OpenAI models. Please provide your API key in the LLM component.", [], model⟩) ∧
    (strStartsWith model "gpt" = false → strStartsWith model "gemini" = true →
      generate_response orc query model context custom_prompt use_web_search none =
        ⟨"Error generating response: API key is required for Gemini models", [], model⟩) := by
  constructor
  · intro h
    unfold generate_response callOpenai
    simp [h, optFalsy]
  · intro h1 h2
    unfold generate_response callGemini
    simp [h1, h2, optFalsy]

/-- C9 witness: the amended statement evaluated for "gpt-4" (with web search
on) and for "gemini-pro". -/
theorem C9_witness :
    generate_response anyLLMOracles "q" "gpt-4" none none true none =
      ⟨"Error generating response: API key is required for OpenAI models. Please provide your API key in the LLM component.", [], "gpt-4"⟩ ∧
    generate_response anyLLMOracles "q" "gemini-pro" none none false none =
      ⟨"Error generating response: API key is required for Gemini models", [], "gemini-pro"⟩ :=
  ⟨(C9_missing_credential_ordinary_response anyLLMOracles "q" "gpt-4" none none
      true).1 (by decide),
   (C9_missing_credential_ordinary_response anyLLMOracles "q" "gemini-pro" none
      none false).2 (by decide) (by decide)⟩

/-- C10: whenever a knowledgeBase node's body completes without raising, the
output written for it is the knowledge_base object that carries — besides the
context text — the node's configured `embeddingApiKey` (null when unset)
under the key "embedding_api_key"; and that very object, credential
included, appears verbatim in the merged input of every successor of the
node. -/
theorem C10_kb_output_carries_credential (orc : Oracles) (eid : Nat)
    (node : Node) (input : List (String × JVal)) (st st' : RunState)
    (ht : node.type = "knowledgeBase")
    (hb : processNodeBody orc eid node input st = .ok st') :
    ∃ ctx,
      st'.outputs.lookup node.id = some (.obj [("context", ctx),
        ("type", .str "knowledge_base"),
        ("embedding_api_key", jget node.data "embeddingApiKey" .null)]) ∧
      ∀ (edges : List Edge) (t : String) (init : List (String × JVal)),
        Edge.mk node.id t ∈ edges →
        (getNodeInput t edges st'.outputs init).lookup node.id =
          some (.obj [("context", ctx),
            ("type", .str "knowledge_base"),
            ("embedding_api_key", jget node.data "embeddingApiKey" .null)]) := by
  obtain ⟨ctx, rfl⟩ := processNodeBody_kb_shape orc eid node input st st' ht hb
  have hself : ((st.insertOut node.id (.obj [("context", ctx),
      ("type", .str "knowledge_base"),
      ("embedding_api_key", jget node.data "embeddingApiKey" .null)])).outputs.lookup
        node.id) = some (.obj [("context", ctx),
      ("type", .str "knowledge_base"),
      ("embedding_api_key", jget node.data "embeddingApiKey" .null)]) := by
    show (dictInsert st.outputs node.id _).lookup node.id = _
    rw [lookup_dictInsert_self]
  exact ⟨ctx, hself, fun edges t init he =>
    lookup_getNodeInput_of_edge node.id t _ init _ edges he hself⟩

/-- C10 witness: a knowledgeBase node with key "sek" configured and no
user-query input completes without raising; the claim's conclusion holds at
the resulting state. -/
theorem C10_witness :
    ∃ ctx,
      ((initState.insertOut "k" (.obj [("context", .str ""),
        ("type", .str "knowledge_base"),
        ("embedding_api_key", .str "sek")])).outputs.lookup "k" =
          some (.obj [("context", ctx), ("type", .str "knowledge_base"),
            ("embedding_api_key",
              jget [("embeddingApiKey", .str "sek")] "embeddingApiKey" .null)])) ∧
      ∀ (edges : List Edge) (t : String) (init : List (String × JVal)),
        Edge.mk "k" t ∈ edges →
        (getNodeInput t edges (initState.insertOut "k" (.obj [("context", .str ""),
            ("type", .str "knowledge_base"),
            ("embedding_api_key", .str "sek")])).outputs init).lookup "k" =
          some (.obj [("context", ctx), ("type", .str "knowledge_base"),
            ("embedding_api_key",
              jget [("embeddingApiKey", .str "sek")] "embeddingApiKey" .null)]) :=
  C10_kb_output_carries_credential defaultOracles 3
    ⟨"k", "knowledgeBase", [("embeddingApiKey", .str "sek")]⟩ [] initState _
    rfl rfl

theorem processWorkflowNodes_inv (orc : Oracles) (nodes : List Node)
    (edges : List Edge) (initialInput : List (String × JVal)) (eid : Nat)
    (P : List String → RunState → Prop)
    (hinit : P [] initState)
    (hphase1 : ∀ n ∈ nodes.filter
        (fun n => !((edges.map Edge.target).contains n.id)),
      n.type = "userQuery" → ∀ p st, P p st →
      P (addOnce p n.id)
        (processNode orc eid n initialInput { st with calls := st.calls ++ [n.id] }))
    (hstep : ∀ n ∈ nodes, ∀ p st, n.id ∉ p → depsReady edges n.id p = true →
      P p st →
      P (p ++ [n.id])
        (processNode orc eid n (getNodeInput n.id edges st.outputs initialInput)
          { st with calls := st.calls ++ [n.id] })) :
    P (processWorkflowNodes orc nodes edges initialInput eid).processed
      (processWorkflowNodes orc nodes edges initialInput eid).state := by
  unfold processWorkflowNodes
  simp only []
  exact processLoop_inv orc eid nodes edges initialInput P
    (fun p st h => processPass_inv orc eid edges initialInput nodes P hstep
      nodes (fun _ h => h) p st h) _ _ _
    (phase1_inv orc eid initialInput _ P hphase1 _ (fun _ h => h) [] initState hinit)

theorem processWorkflowNodes_inv_strong (orc : Oracles) (nodes : List Node)
    (edges : List Edge) (initialInput : List (String × JVal)) (eid : Nat)
    (hids : (nodes.map Node.id).Nodup)
    (P : List String → RunState → Prop)
    (hinit : P [] initState)
    (hphase1 : ∀ n ∈ nodes.filter
        (fun n => !((edges.map Edge.target).contains n.id)),
      n.type = "userQuery" → ∀ p st, n.id ∉ p → P p st →
      P (p ++ [n.id])
        (processNode orc eid n initialInput { st with calls := st.calls ++ [n.id] }))
    (hstep : ∀ n ∈ nodes, ∀ p st, n.id ∉ p → depsReady edges n.id p = true →
      P p st →
      P (p ++ [n.id])
        (processNode orc eid n (getNodeInput n.id edges st.outputs initialInput)
          { st with calls := st.calls ++ [n.id] })) :
    P (processWorkflowNodes orc nodes edges initialInput eid).processed
      (processWorkflowNodes orc nodes edges initialInput eid).state := by
  unfold processWorkflowNodes
  simp only []
  have hsub : (nodes.filter
      (fun n => !((edges.map Edge.target).contains n.id))).Sublist nodes :=
    List.filter_sublist nodes
  have hnd : ((nodes.filter
      (fun n => !((edges.map Edge.target).contains n.id))).map Node.id).Nodup :=
    (hsub.map Node.id).nodup hids
  exact processLoop_inv orc eid nodes edges initialInput P
    (fun p st h => processPass_inv orc eid edges initialInput nodes P hstep
      nodes (fun _ h => h) p st h) _ _ _
    (phase1_inv_strong orc eid initialInput _ P hphase1 _ (fun _ h => h) hnd
      [] initState (fun _ _ => List.not_mem_nil _) hinit)

/-- C2: for a graph with a cyclic (or never-completable) subset `S` — every
member of `S` is the target of an edge whose source is again in `S` or is an
unknown node id — the execution loop terminates (the embedding is a total
function; see `processLoop_fuel_irrel` for the fuel bound), the run is
reported successful, the final status is completed (not failed), every node
of `S` is neither processed nor present in the output table, and every
processed node has its output present (assuming all nodes are of the four
supported kinds, per the data model). -/
theorem C2_cycle_stalls_run_completed (orc : Oracles) (nodes : List Node)
    (edges : List Edge) (initialInput : List (String × JVal)) (eid : Nat)
    (S : List String)
    (hS : ∀ s ∈ S, ∃ e ∈ edges, e.target = s ∧
      (e.source ∈ S ∨ e.source ∉ nodes.map Node.id))
    (hK : ∀ n ∈ nodes, n.type ∈ knownKinds) :
    (processWorkflowNodes orc nodes edges initialInput eid).success = true ∧
    executionStatus (processWorkflowNodes orc nodes edges initialInput eid) =
      "completed" ∧
    (∀ s ∈ S, s ∉ (processWorkflowNodes orc nodes edges initialInput eid).processed ∧
      (processWorkflowNodes orc nodes edges initialInput
        eid).state.outputs.lookup s = none) ∧
    (∀ k ∈ (processWorkflowNodes orc nodes edges initialInput eid).processed,
      ((processWorkflowNodes orc nodes edges initialInput
        eid).state.outputs.lookup k).isSome = true) := by
  have hmain := processWorkflowNodes_inv orc nodes edges initialInput eid
    (fun p st => (∀ s ∈ S, s ∉ p) ∧ (∀ s ∈ S, st.outputs.lookup s = none) ∧
      (∀ k ∈ p, (st.outputs.lookup k).isSome = true) ∧
      (∀ k ∈ p, k ∈ nodes.map Node.id))
    ⟨fun s _ => List.not_mem_nil s, fun s _ => rfl,
     fun k hk => absurd hk (List.not_mem_nil k),
     fun k hk => absurd hk (List.not_mem_nil k)⟩
    ?phase1 ?step
  case phase1 =>
    intro n hn ht p st hP
    have hnnodes : n ∈ nodes := (List.mem_filter.mp hn).1
    have hnotgt : n.id ∉ edges.map Edge.target := by
      have := (List.mem_filter.mp hn).2
      simpa using this
    have hnS : n.id ∉ S := by
      intro hmem
      obtain ⟨e, he, htar, _⟩ := hS n.id hmem
      exact hnotgt (htar ▸ List.mem_map_of_mem Edge.target he)
    refine ⟨?_, ?_, ?_, ?_⟩
    · intro s hs hcon
      rcases mem_addOnce.mp hcon with h1 | rfl
      · exact hP.1 s hs h1
      · exact hnS hs
    · intro s hs
      rw [processNode_frame _ _ _ _ _ _ (fun heq => hnS (heq ▸ hs))]
      exact hP.2.1 s hs
    · intro k hk
      rcases mem_addOnce.mp hk with h1 | rfl
      · exact processNode_outputs_mono _ _ _ _ _ _ (hP.2.2.1 k h1)
      · exact processNode_known_self _ _ _ _ _ (by rw [ht]; decide)
    · intro k hk
      rcases mem_addOnce.mp hk with h1 | rfl
      · exact hP.2.2.2 k h1
      · exact List.mem_map_of_mem Node.id hnnodes
  case step =>
    intro n hn p st hni hdeps hP
    have hnS : n.id ∉ S := by
      intro hmem
      obtain ⟨e, he, htar, hsrc⟩ := hS n.id hmem
      have hall := List.all_eq_true.mp hdeps e he
      rw [htar] at hall
      simp only [decide_True, Bool.true_and, Bool.not_not] at hall
      have hsp : e.source ∈ p := by simpa using hall
      rcases hsrc with h1 | h1
      · exact hP.1 e.source h1 hsp
      · exact h1 (hP.2.2.2 e.source hsp)
    refine ⟨?_, ?_, ?_, ?_⟩
    · intro s hs hcon
      rcases List.mem_append.mp hcon with h1 | h2
      · exact hP.1 s hs h1
      · exact hnS (List.mem_singleton.mp h2 ▸ hs)
    · intro s hs
      rw [processNode_frame _ _ _ _ _ _ (fun heq => hnS (heq ▸ hs))]
      exact hP.2.1 s hs
    · intro k hk
      rcases List.mem_append.mp hk with h1 | h2
      · exact processNode_outputs_mono _ _ _ _ _ _ (hP.2.2.1 k h1)
      · rw [List.mem_singleton.mp h2]
        exact processNode_known_self _ _ _ _ _ (hK n hn)
    · intro k hk
      rcases List.mem_append.mp hk with h1 | h2
      · exact hP.2.2.2 k h1
      · rw [List.mem_singleton.mp h2]
        exact List.mem_map_of_mem Node.id hn
  exact ⟨rfl, rfl, fun s hs => ⟨hmain.1 s hs, hmain.2.1 s hs⟩,
    fun k hk => hmain.2.2.1 k hk⟩

/-- C2 witness: the graph with a userQuery start node `q` and a 2-cycle
between `a` (llmEngine) and `b` (output): the run completes, `q` is
processed with an output, and `a`, `b` are absent. -/
theorem C2_witness :
    ((∀ s ∈ (["a", "b"] : List String),
        ∃ e ∈ ([⟨"a", "b"⟩, ⟨"b", "a"⟩] : List Edge), e.target = s ∧
          (e.source ∈ (["a", "b"] : List String) ∨
            e.source ∉ ([⟨"q", "userQuery", []⟩,
              ⟨"a", "llmEngine", [("model", .str "m")]⟩,
              ⟨"b", "output", []⟩] : List Node).map Node.id)) ∧
      (∀ n ∈ ([⟨"q", "userQuery", []⟩,
          ⟨"a", "llmEngine", [("model", .str "m")]⟩,
          ⟨"b", "output", []⟩] : List Node), n.type ∈ knownKinds)) ∧
    ((processWorkflowNodes defaultOracles [⟨"q", "userQuery", []⟩,
        ⟨"a", "llmEngine", [("model", .str "m")]⟩, ⟨"b", "output", []⟩]
        [⟨"a", "b"⟩, ⟨"b", "a"⟩] [("query", .str "hi")] 7).success = true ∧
      executionStatus (processWorkflowNodes defaultOracles [⟨"q", "userQuery", []⟩,
        ⟨"a", "llmEngine", [("model", .str "m")]⟩, ⟨"b", "output", []⟩]
        [⟨"a", "b"⟩, ⟨"b", "a"⟩] [("query", .str "hi")] 7) = "completed" ∧
      (∀ s ∈ (["a", "b"] : List String),
        s ∉ (processWorkflowNodes defaultOracles [⟨"q", "userQuery", []⟩,
          ⟨"a", "llmEngine", [("model", .str "m")]⟩, ⟨"b", "output", []⟩]
          [⟨"a", "b"⟩, ⟨"b", "a"⟩] [("query", .str "hi")] 7).processed ∧
        (processWorkflowNodes defaultOracles [⟨"q", "userQuery", []⟩,
          ⟨"a", "llmEngine", [("model", .str "m")]⟩, ⟨"b", "output", []⟩]
          [⟨"a", "b"⟩, ⟨"b", "a"⟩] [("query", .str "hi")]
          7).state.outputs.lookup s = none) ∧
      (∀ k ∈ (processWorkflowNodes defaultOracles [⟨"q", "userQuery", []⟩,
          ⟨"a", "llmEngine", [("model", .str "m")]⟩, ⟨"b", "output", []⟩]
          [⟨"a", "b"⟩, ⟨"b", "a"⟩] [("query", .str "hi")] 7).processed,
        ((processWorkflowNodes defaultOracles [⟨"q", "userQuery", []⟩,
          ⟨"a", "llmEngine", [("model", .str "m")]⟩, ⟨"b", "output", []⟩]
          [⟨"a", "b"⟩, ⟨"b", "a"⟩] [("query", .str "hi")]
          7).state.outputs.lookup k).isSome = true)) :=
  ⟨⟨by decide, by decide⟩,
    C2_cycle_stalls_run_completed defaultOracles
      [⟨"q", "userQuery", []⟩, ⟨"a", "llmEngine", [("model", .str "m")]⟩,
        ⟨"b", "output", []⟩]
      [⟨"a", "b"⟩, ⟨"b", "a"⟩] [("query", .str "hi")] 7 ["a", "b"]
      (by decide) (by decide)⟩

/-- C3 counterexample: when the chat-history commit fails, the entry of a
userQuery node is written twice within one execution: the branch writes the
user_query output (line 200), the `db.commit()` raises, and the `except`
handler overwrites the same key with the error variant (lines 302-306) — the
final value is the error object, not the first write.  So "written at most
once and, once written, never overwritten" fails on the code. -/
theorem C3_counterexample :
    (processWorkflowNodes failDbOracles [⟨"u", "userQuery", []⟩]
      [] [] 1).state.writes = ["u", "u"] ∧
    ¬ (processWorkflowNodes failDbOracles [⟨"u", "userQuery", []⟩]
      [] [] 1).state.writes.Nodup ∧
    (processWorkflowNodes failDbOracles [⟨"u", "userQuery", []⟩]
      [] [] 1).state.outputs.lookup "u" = some (errObj "database commit failed") :=
  ⟨rfl, by decide, rfl⟩

/-- C3 amended: under the data model's id-uniqueness assumption, no node is
processed more than once per execution (the ghost `calls` log of
`_process_node` invocations is duplicate-free, even when a node is reachable
via multiple predecessor paths), and — provided the chat-history commits of
the persistence collaborator do not fail — every output-table entry is
written at most once and never overwritten (the ghost `writes` log of
`node_outputs[...]` assignments is duplicate-free).  Without that proviso a
commit failure after the userQuery/output write overwrites the entry with
the error variant (see the counterexample). -/
theorem C3_write_once_unless_commit_fails (orc : Oracles) (nodes : List Node)
    (edges : List Edge) (initialInput : List (String × JVal)) (eid : Nat)
    (hids : (nodes.map Node.id).Nodup) :
    (processWorkflowNodes orc nodes edges initialInput eid).state.calls.Nodup ∧
    (processWorkflowNodes orc nodes edges initialInput eid).processed.Nodup ∧
    ((∀ i r c, orc.commitChat i r c = .ok ()) →
      (processWorkflowNodes orc nodes edges initialInput
        eid).state.writes.Nodup) := by
  have hcp := processWorkflowNodes_inv_strong orc nodes edges initialInput eid hids
    (fun p st => p.Nodup ∧ st.calls = p)
    ⟨List.nodup_nil, rfl⟩
    ?cphase1 ?cstep
  case cphase1 =>
    intro n _ _ p st hni hP
    refine ⟨by simp [List.nodup_append, hP.1, hni], ?_⟩
    rw [processNode_calls]
    show st.calls ++ [n.id] = p ++ [n.id]
    rw [hP.2]
  case cstep =>
    intro n _ p st hni _ hP
    refine ⟨by simp [List.nodup_append, hP.1, hni], ?_⟩
    rw [processNode_calls]
    show st.calls ++ [n.id] = p ++ [n.id]
    rw [hP.2]
  refine ⟨hcp.2 ▸ hcp.1, hcp.1, fun hdb => ?_⟩
  have hmain := processWorkflowNodes_inv_strong orc nodes edges initialInput eid hids
    (fun p st => p.Nodup ∧ st.writes.Nodup ∧ (∀ k ∈ st.writes, k ∈ p))
    ⟨List.nodup_nil, List.nodup_nil, fun k hk => absurd hk (List.not_mem_nil k)⟩
    ?wphase1 ?wstep
  case wphase1 =>
    intro n _ _ p st hni hP
    refine ⟨by simp [List.nodup_append, hP.1, hni], ?_⟩
    have hw := processNode_writes_db_ok orc eid n initialInput
      { st with calls := st.calls ++ [n.id] } hdb
    rcases hw with hw | hw
    · rw [hw]
      exact ⟨hP.2.1, fun k hk => List.mem_append_left _ (hP.2.2 k hk)⟩
    · rw [hw]
      constructor
      · simp only [List.nodup_append, List.nodup_singleton]
        exact ⟨hP.2.1, trivial, by
          intro k hk hk2
          rw [List.mem_singleton.mp hk2] at hk
          exact hni (hP.2.2 _ hk)⟩
      · intro k hk
        rcases List.mem_append.mp hk with h1 | h2
        · exact List.mem_append_left _ (hP.2.2 k h1)
        · exact List.mem_append_right _ h2
  case wstep =>
    intro n _ p st hni _ hP
    refine ⟨by simp [List.nodup_append, hP.1, hni], ?_⟩
    have hw := processNode_writes_db_ok orc eid n
      (getNodeInput n.id edges st.outputs initialInput)
      { st with calls := st.calls ++ [n.id] } hdb
    rcases hw with hw | hw
    · rw [hw]
      exact ⟨hP.2.1, fun k hk => List.mem_append_left _ (hP.2.2 k hk)⟩
    · rw [hw]
      constructor
      · simp only [List.nodup_append, List.nodup_singleton]
        exact ⟨hP.2.1, trivial, by
          intro k hk hk2
          rw [List.mem_singleton.mp hk2] at hk
          exact hni (hP.2.2 _ hk)⟩
      · intro k hk
        rcases List.mem_append.mp hk with h1 | h2
        · exact List.mem_append_left _ (hP.2.2 k h1)
        · exact List.mem_append_right _ h2
  exact hmain.2.1

/-- C3 witness: the amended statement at a diamond graph — `l` is reachable
both directly from `q` and through `k`, `o` sits behind `l` — with
collaborators whose chat commits succeed. -/
theorem C3_witness :
    (processWorkflowNodes defaultOracles
      [⟨"q", "userQuery", []⟩, ⟨"k", "knowledgeBase", []⟩,
        ⟨"l", "llmEngine", [("model", .str "gpt-4")]⟩, ⟨"o", "output", []⟩]
      [⟨"q", "k"⟩, ⟨"q", "l"⟩, ⟨"k", "l"⟩, ⟨"l", "o"⟩]
      [("query", .str "hi")] 9).state.calls.Nodup ∧
    (processWorkflowNodes defaultOracles
      [⟨"q", "userQuery", []⟩, ⟨"k", "knowledgeBase", []⟩,
        ⟨"l", "llmEngine", [("model", .str "gpt-4")]⟩, ⟨"o", "output", []⟩]
      [⟨"q", "k"⟩, ⟨"q", "l"⟩, ⟨"k", "l"⟩, ⟨"l", "o"⟩]
      [("query", .str "hi")] 9).processed.Nodup ∧
    (processWorkflowNodes defaultOracles
      [⟨"q", "userQuery", []⟩, ⟨"k", "knowledgeBase", []⟩,
        ⟨"l", "llmEngine", [("model", .str "gpt-4")]⟩, ⟨"o", "output", []⟩]
      [⟨"q", "k"⟩, ⟨"q", "l"⟩, ⟨"k", "l"⟩, ⟨"l", "o"⟩]
      [("query", .str "hi")] 9).state.writes.Nodup :=
  have h := C3_write_once_unless_commit_fails defaultOracles
    [⟨"q", "userQuery", []⟩, ⟨"k", "knowledgeBase", []⟩,
      ⟨"l", "llmEngine", [("model", .str "gpt-4")]⟩, ⟨"o", "output", []⟩]
    [⟨"q", "k"⟩, ⟨"q", "l"⟩, ⟨"k", "l"⟩, ⟨"l", "o"⟩]
    [("query", .str "hi")] 9 (by decide)
  ⟨h.1, h.2.1, h.2.2 (fun _ _ _ => rfl)⟩


/-- C6: for every execution (over the data model's unique node ids)
containing an llmEngine node with no (falsy) model configured, the overall
status is still completed — and whenever that node got processed, its entry
in the output table is the error variant carrying the missing-model
message. -/
theorem C6_missing_model_error_but_completed (orc : Oracles)
    (nodes : List Node) (edges : List Edge)
    (initialInput : List (String × JVal)) (eid : Nat) (node : Node)
    (hids : (nodes.map Node.id).Nodup) (hn : node ∈ nodes)
    (ht : node.type = "llmEngine")
    (hm : truthy (jget node.data "model" .null) = false) :
    executionStatus (processWorkflowNodes orc nodes edges initialInput eid) =
      "completed" ∧
    (node.id ∈ (processWorkflowNodes orc nodes edges initialInput eid).processed →
      (processWorkflowNodes orc nodes edges initialInput
        eid).state.outputs.lookup node.id =
        some (errObj "Model is required for LLM Engine node")) := by
  have hmain := processWorkflowNodes_inv orc nodes edges initialInput eid
    (fun p st => (st.outputs.lookup node.id = none ∨
        st.outputs.lookup node.id =
          some (errObj "Model is required for LLM Engine node")) ∧
      (node.id ∈ p → (st.outputs.lookup node.id).isSome = true))
    ⟨Or.inl rfl, fun hk => absurd hk (List.not_mem_nil _)⟩
    ?phase1 ?step
  case phase1 =>
    intro m hmf htm p st hP
    have hmnodes : m ∈ nodes := (List.mem_filter.mp hmf).1
    have hne : m.id ≠ node.id := by
      intro heq
      have : m = node := List.inj_on_of_nodup_map hids hmnodes hn heq
      rw [this] at htm
      rw [htm] at ht
      exact absurd ht (by decide)
    refine ⟨?_, ?_⟩
    · rw [processNode_frame _ _ _ _ _ _ (fun heq => hne heq.symm)]
      exact hP.1
    · intro hmem
      rcases mem_addOnce.mp hmem with h1 | h2
      · exact processNode_outputs_mono _ _ _ _ _ _ (hP.2 h1)
      · exact absurd h2.symm hne
  case step =>
    intro m hmn p st hni _ hP
    by_cases hne : m.id = node.id
    · have hmeq : m = node := List.inj_on_of_nodup_map hids hmn hn hne
      subst hmeq
      rw [processNode_llm_noModel _ _ _ _ _ ht hm]
      constructor
      · exact Or.inr (by
          show (dictInsert st.outputs m.id _).lookup m.id = _
          rw [lookup_dictInsert_self])
      · intro _
        show ((dictInsert st.outputs m.id _).lookup m.id).isSome = true
        rw [lookup_dictInsert_self]
        rfl
    · refine ⟨?_, ?_⟩
      · rw [processNode_frame _ _ _ _ _ _ (fun heq => hne heq.symm)]
        exact hP.1
      · intro hmem
        rcases List.mem_append.mp hmem with h1 | h2
        · exact processNode_outputs_mono _ _ _ _ _ _ (hP.2 h1)
        · exact absurd (List.mem_singleton.mp h2).symm hne
  refine ⟨rfl, fun hmem => ?_⟩
  rcases hmain.1 with h | h
  · have := hmain.2 hmem
    rw [h] at this
    exact absurd this (by simp)
  · exact h

/-- C6 witness: the chain `q → l → o` where `l` is an llmEngine node with no
model: the execution completes and `l`'s output is the missing-model error. -/
theorem C6_witness :
    executionStatus (processWorkflowNodes defaultOracles
      [⟨"q", "userQuery", []⟩, ⟨"l", "llmEngine", []⟩, ⟨"o", "output", []⟩]
      [⟨"q", "l"⟩, ⟨"l", "o"⟩] [("query", .str "hi")] 4) = "completed" ∧
    (("l" : String) ∈ (processWorkflowNodes defaultOracles
        [⟨"q", "userQuery", []⟩, ⟨"l", "llmEngine", []⟩, ⟨"o", "output", []⟩]
        [⟨"q", "l"⟩, ⟨"l", "o"⟩] [("query", .str "hi")] 4).processed →
      (processWorkflowNodes defaultOracles
        [⟨"q", "userQuery", []⟩, ⟨"l", "llmEngine", []⟩, ⟨"o", "output", []⟩]
        [⟨"q", "l"⟩, ⟨"l", "o"⟩] [("query", .str "hi")]
        4).state.outputs.lookup "l" =
        some (errObj "Model is required for LLM Engine node")) :=
  C6_missing_model_error_but_completed defaultOracles
    [⟨"q", "userQuery", []⟩, ⟨"l", "llmEngine", []⟩, ⟨"o", "output", []⟩]
    [⟨"q", "l"⟩, ⟨"l", "o"⟩] [("query", .str "hi")] 4 ⟨"l", "llmEngine", []⟩
    (by decide) (by decide) rfl rfl

theorem length_filter_partition (f : Node → Bool) : ∀ l : List Node,
    (l.filter f).length + (l.filter (fun a => !(f a))).length = l.length := by
  intro l
  induction l with
  | nil => rfl
  | cons a l ih =>
    by_cases h : f a = true
    · simp [List.filter_cons, h, ← ih]
      omega
    · simp only [Bool.not_eq_true] at h
      simp [List.filter_cons, h, ← ih]
      omega

theorem phase1_trace (orc : Oracles) (eid : Nat)
    (initialInput : List (String × JVal)) :
    ∀ (sub : List Node) (p : List String) (st : RunState),
      (sub.map Node.id).Nodup → (∀ n ∈ sub, n.id ∉ p) →
      (phase1 orc eid initialInput sub p st).1 =
        p ++ (sub.filter (fun n => n.type = "userQuery")).map Node.id ∧
      (phase1 orc eid initialInput sub p st).2.calls =
        st.calls ++ (sub.filter (fun n => n.type = "userQuery")).map Node.id := by
  intro sub
  induction sub with
  | nil => intro p st _ _; simp [phase1]
  | cons n rest ih =>
    intro p st hnd hfresh
    have hndrest : (rest.map Node.id).Nodup := (List.nodup_cons.mp hnd).2
    have hnotin : n.id ∉ rest.map Node.id := (List.nodup_cons.mp hnd).1
    by_cases ht : n.type = "userQuery"
    · simp only [phase1, if_pos ht]
      rw [addOnce_of_not_mem (hfresh n (List.mem_cons_self _ _))]
      have hfresh' : ∀ m ∈ rest, m.id ∉ p ++ [n.id] := by
        intro m hm hcon
        rcases List.mem_append.mp hcon with h1 | h2
        · exact hfresh m (List.mem_cons_of_mem _ hm) h1
        · exact hnotin ((List.mem_singleton.mp h2) ▸ List.mem_map_of_mem Node.id hm)
      have := ih (p ++ [n.id])
        (processNode orc eid n initialInput { st with calls := st.calls ++ [n.id] })
        hndrest hfresh'
      refine ⟨?_, ?_⟩
      · rw [this.1]
        simp [List.filter_cons, ht]
      · rw [this.2, processNode_calls]
        show st.calls ++ [n.id] ++ _ = _
        simp [List.filter_cons, ht]
    · simp only [phase1, if_neg ht]
      have := ih p st hndrest (fun m hm => hfresh m (List.mem_cons_of_mem _ hm))
      refine ⟨?_, ?_⟩
      · rw [this.1]
        simp [List.filter_cons, ht]
      · rw [this.2]
        simp [List.filter_cons, ht]

theorem processPass_no_edges_trace (orc : Oracles) (eid : Nat)
    (initialInput : List (String × JVal)) :
    ∀ (sub : List Node) (p : List String) (st : RunState),
      (sub.map Node.id).Nodup →
      (processPass orc eid [] initialInput sub p st).1 =
        p ++ (sub.filter (fun n => n.id ∉ p)).map Node.id ∧
      (processPass orc eid [] initialInput sub p st).2.calls =
        st.calls ++ (sub.filter (fun n => n.id ∉ p)).map Node.id := by
  intro sub
  induction sub with
  | nil => intro p st _; simp [processPass]
  | cons n rest ih =>
    intro p st hnd
    have hndrest : (rest.map Node.id).Nodup := (List.nodup_cons.mp hnd).2
    have hnotin : n.id ∉ rest.map Node.id := (List.nodup_cons.mp hnd).1
    by_cases hmem : n.id ∈ p
    · simp only [processPass, if_pos hmem]
      have := ih p st hndrest
      have hflt : rest.filter (fun m => m.id ∉ p) =
          (n :: rest).filter (fun m => m.id ∉ p) := by
        simp [List.filter_cons, hmem]
      refine ⟨?_, ?_⟩
      · rw [this.1, hflt]
      · rw [this.2, hflt]
    · simp only [processPass, if_neg hmem]
      have hdeps : depsReady [] n.id p = true := rfl
      simp only [if_pos hdeps]
      have hfcongr : rest.filter (fun m => m.id ∉ p ++ [n.id]) =
          rest.filter (fun m => m.id ∉ p) := by
        apply List.filter_congr
        intro m hm
        have hne : m.id ≠ n.id := by
          intro heq
          exact hnotin (heq ▸ List.mem_map_of_mem Node.id hm)
        apply decide_eq_decide.mpr
        constructor
        · intro h hcon
          exact h (List.mem_append_left _ hcon)
        · intro h hcon
          rcases List.mem_append.mp hcon with h1 | h2
          · exact h h1
          · exact hne (List.mem_singleton.mp h2)
      have := ih (p ++ [n.id])
        (processNode orc eid n (getNodeInput n.id [] st.outputs initialInput)
          { st with calls := st.calls ++ [n.id] }) hndrest
      refine ⟨?_, ?_⟩
      · rw [this.1, hfcongr]
        simp [List.filter_cons, hmem]
      · rw [this.2, hfcongr, processNode_calls]
        show st.calls ++ [n.id] ++ _ = _
        simp [List.filter_cons, hmem]

/-- C8 (amended content, see the claim theorem): the full trace
characterization for edge-free graphs. -/
theorem processWorkflowNodes_no_edges_trace (orc : Oracles) (nodes : List Node)
    (initialInput : List (String × JVal)) (eid : Nat)
    (hids : (nodes.map Node.id).Nodup) :
    (processWorkflowNodes orc nodes [] initialInput eid).state.calls =
      (nodes.filter (fun n => n.type = "userQuery")).map Node.id ++
      (nodes.filter (fun n => ¬(n.type = "userQuery"))).map Node.id ∧
    (processWorkflowNodes orc nodes [] initialInput eid).processed =
      (nodes.filter (fun n => n.type = "userQuery")).map Node.id ++
      (nodes.filter (fun n => ¬(n.type = "userQuery"))).map Node.id := by
  have hstarts : (nodes.filter
      (fun n => !((([] : List Edge).map Edge.target).contains n.id))) = nodes := by
    simp
  have hph := phase1_trace orc eid initialInput nodes [] initState hids
    (fun n _ => List.not_mem_nil _)
  rw [List.nil_append] at hph
  have hc1 : (phase1 orc eid initialInput nodes [] initState).2.calls =
      (nodes.filter (fun n => n.type = "userQuery")).map Node.id := by
    rw [hph.2]
    rfl
  have hpsnd := processPass_no_edges_trace orc eid initialInput nodes
    (phase1 orc eid initialInput nodes [] initState).1
    (phase1 orc eid initialInput nodes [] initState).2 hids
  have hmemiff : ∀ n ∈ nodes, n.id ∈
      (nodes.filter (fun m => m.type = "userQuery")).map Node.id ↔
      n.type = "userQuery" := by
    intro n hn
    constructor
    · intro hmem
      obtain ⟨m, hmf, hmid⟩ := List.mem_map.mp hmem
      have hmn : m ∈ nodes := (List.mem_filter.mp hmf).1
      have hmu : m.type = "userQuery" := by
        have := (List.mem_filter.mp hmf).2
        simpa using this
      have : m = n := List.inj_on_of_nodup_map hids hmn hn hmid
      rw [← this]
      exact hmu
    · intro ht
      exact List.mem_map_of_mem Node.id
        (List.mem_filter.mpr ⟨hn, by simpa using ht⟩)
  have hfeq : (nodes.filter
      (fun n => n.id ∉ (phase1 orc eid initialInput nodes [] initState).1)) =
      nodes.filter (fun n => ¬(n.type = "userQuery")) := by
    apply List.filter_congr
    intro m hm
    apply decide_eq_decide.mpr
    rw [hph.1]
    constructor
    · intro h hcon
      exact h ((hmemiff m hm).mpr hcon)
    · intro h hcon
      exact h ((hmemiff m hm).mp hcon)
  have hpart : (nodes.filter (fun n => n.type = "userQuery")).length +
      (nodes.filter (fun n => ¬(n.type = "userQuery"))).length = nodes.length := by
    have := length_filter_partition (fun n => decide (n.type = "userQuery")) nodes
    have hsame : (nodes.filter (fun a => !(decide (a.type = "userQuery")))) =
        nodes.filter (fun n => ¬(n.type = "userQuery")) := by
      apply List.filter_congr
      intro m _
      simp
    rw [hsame] at this
    exact this
  have hp1len : (phase1 orc eid initialInput nodes [] initState).1.length =
      (nodes.filter (fun n => n.type = "userQuery")).length := by
    rw [hph.1, List.length_map]
  unfold processWorkflowNodes
  simp only [hstarts]
  by_cases hlt : (phase1 orc eid initialInput nodes [] initState).1.length <
      nodes.length
  · -- some non-userQuery nodes remain: the first loop pass processes them all
    have hunfold : processLoop orc eid nodes [] initialInput (nodes.length + 1)
        (phase1 orc eid initialInput nodes [] initState).1
        (phase1 orc eid initialInput nodes [] initState).2 =
        processLoop orc eid nodes [] initialInput nodes.length
          (processPass orc eid [] initialInput nodes
            (phase1 orc eid initialInput nodes [] initState).1
            (phase1 orc eid initialInput nodes [] initState).2).1
          (processPass orc eid [] initialInput nodes
            (phase1 orc eid initialInput nodes [] initState).1
            (phase1 orc eid initialInput nodes [] initState).2).2 := by
      simp only [processLoop, if_pos hlt]
      have hprog : (phase1 orc eid initialInput nodes [] initState).1.length <
          (processPass orc eid [] initialInput nodes
            (phase1 orc eid initialInput nodes [] initState).1
            (phase1 orc eid initialInput nodes [] initState).2).1.length := by
        rw [hpsnd.1, hfeq, List.length_append, List.length_map]
        have : 0 < (nodes.filter (fun n => ¬(n.type = "userQuery"))).length := by
          omega
        omega
      simp only [if_pos hprog]
    rw [hunfold]
    have hfull : ¬ ((processPass orc eid [] initialInput nodes
        (phase1 orc eid initialInput nodes [] initState).1
        (phase1 orc eid initialInput nodes [] initState).2).1.length <
        nodes.length) := by
      rw [hpsnd.1, hfeq, List.length_append, List.length_map]
      omega
    rw [processLoop_stop orc eid nodes [] initialInput _ _ _ hfull]
    constructor
    · show (processPass orc eid [] initialInput nodes _ _).2.calls = _
      rw [hpsnd.2, hfeq, hc1]
    · show (processPass orc eid [] initialInput nodes _ _).1 = _
      rw [hpsnd.1, hfeq, hph.1]
  · -- every node is a userQuery start node: the loop exits immediately
    rw [processLoop_stop orc eid nodes [] initialInput _ _ _ hlt]
    have hrest0 : (nodes.filter (fun n => ¬(n.type = "userQuery"))).length = 0 := by
      omega
    have hrest : (nodes.filter (fun n => ¬(n.type = "userQuery"))) = [] :=
      List.length_eq_zero.mp hrest0
    rw [hrest]
    constructor
    · show (phase1 orc eid initialInput nodes [] initState).2.calls = _
      rw [hc1]
      simp
    · show (phase1 orc eid initialInput nodes [] initState).1 = _
      rw [hph.1]
      simp

/-- C8 counterexample: the no-edge graph `[a (output), b (userQuery)]`: the
call trace is `["b", "a"]`, not the original list order `["a", "b"]` — the
userQuery start-node pre-phase (lines 110-114) runs `b` before the main loop
reaches `a`, so "all nodes complete in original list order" fails. -/
theorem C8_counterexample :
    (processWorkflowNodes defaultOracles
      [⟨"a", "output", []⟩, ⟨"b", "userQuery", []⟩] [] [] 1).state.calls =
      ["b", "a"] ∧
    (processWorkflowNodes defaultOracles
      [⟨"a", "output", []⟩, ⟨"b", "userQuery", []⟩] [] [] 1).state.calls ≠
      ([⟨"a", "output", []⟩, ⟨"b", "userQuery", []⟩] : List Node).map Node.id :=
  ⟨rfl, by decide⟩

/-- C8 amended: execution is deterministic — `processWorkflowNodes` is a
pure function of the node list, edge list and initial input — and ties among
ready nodes in the main loop are broken in original list order, but
userQuery-typed start nodes are executed in a pre-phase before everything
else.  For every edge-free graph (with the data model's unique ids): the
call trace and the processed set equal the userQuery nodes in list order
followed by the remaining nodes in list order (all nodes complete, but not
in plain list order). -/
theorem C8_no_edges_userQuery_nodes_first (orc : Oracles) (nodes : List Node)
    (initialInput : List (String × JVal)) (eid : Nat)
    (hids : (nodes.map Node.id).Nodup) :
    (processWorkflowNodes orc nodes [] initialInput eid).state.calls =
      (nodes.filter (fun n => n.type = "userQuery")).map Node.id ++
      (nodes.filter (fun n => ¬(n.type = "userQuery"))).map Node.id ∧
    (processWorkflowNodes orc nodes [] initialInput eid).processed =
      (nodes.filter (fun n => n.type = "userQuery")).map Node.id ++
      (nodes.filter (fun n => ¬(n.type = "userQuery"))).map Node.id :=
  processWorkflowNodes_no_edges_trace orc nodes initialInput eid hids

/-- C8 witness: the amended statement at the concrete graph
`[a (output), b (userQuery)]` with no edges. -/
theorem C8_witness :
    (processWorkflowNodes defaultOracles
      [⟨"a", "output", []⟩, ⟨"b", "userQuery", []⟩] [] [] 2).state.calls =
      (([⟨"a", "output", []⟩, ⟨"b", "userQuery", []⟩] : List Node).filter
        (fun n => n.type = "userQuery")).map Node.id ++
      (([⟨"a", "output", []⟩, ⟨"b", "userQuery", []⟩] : List Node).filter
        (fun n => ¬(n.type = "userQuery"))).map Node.id ∧
    (processWorkflowNodes defaultOracles
      [⟨"a", "output", []⟩, ⟨"b", "userQuery", []⟩] [] [] 2).processed =
      (([⟨"a", "output", []⟩, ⟨"b", "userQuery", []⟩] : List Node).filter
        (fun n => n.type = "userQuery")).map Node.id ++
      (([⟨"a", "output", []⟩, ⟨"b", "userQuery", []⟩] : List Node).filter
        (fun n => ¬(n.type = "userQuery"))).map Node.id :=
  C8_no_edges_userQuery_nodes_first defaultOracles
    [⟨"a", "output", []⟩, ⟨"b", "userQuery", []⟩] [] 2 (by decide)
